import Mathlib

/-!
# Revision games for IB Computer Science Paper 3: scoring, sessions and ledger

A shallow embedding of `src/app.js`.

* JavaScript strings are Lean strings; their operations work on the list of characters.
* JavaScript numbers that count answers are natural numbers; a session counter grows by 1
  from 0, where the two agree up to `2 ^ 53`. The counts of the ledger can come from storage
  and be large: their sums are rounded as the sums of number values are (`jsAdd`). An index
  that may be `-1` is an integer.
* Platform functions whose body is not part of the program (`String.prototype.toLowerCase`,
  `JSON.parse`, `JSON.stringify`, the outcome of `Math.random`, the order produced by `sort`
  with a random comparator) are parameters of the definitions that call them.
* A call that would raise a `TypeError` in the program is `none` in the embedding.
-/

namespace IbPaper3

set_option maxRecDepth 100000

/-! ## Strings -/

/-- White space and line terminators, the characters removed by `String.prototype.trim`. -/
def isWhiteSpace (c : Char) : Bool :=
  let n := c.toNat
  n == 9 || n == 10 || n == 11 || n == 12 || n == 13 || n == 32 || n == 160 ||
  n == 0x1680 || (0x2000 ≤ n && n ≤ 0x200A) || n == 0x2028 || n == 0x2029 ||
  n == 0x202F || n == 0x205F || n == 0x3000 || n == 0xFEFF

/-- Characters left after the leading white space is dropped. -/
def trimStart (s : List Char) : List Char := s.dropWhile isWhiteSpace

/-- Characters left after the trailing white space is dropped. -/
def trimEnd (s : List Char) : List Char := (s.reverse.dropWhile isWhiteSpace).reverse

/-- `s.trim()`. -/
def trim (s : String) : String := ⟨trimEnd (trimStart s.data)⟩

/-- Substring search on character lists: does `kw` occur in the text at some position. -/
def includesChars : List Char → List Char → Bool
  | [], kw => kw.isEmpty
  | c :: t, kw => kw.isPrefixOf (c :: t) || includesChars t kw

/-- `text.includes(kw)`. -/
def includes (text kw : String) : Bool := includesChars text.data kw.data

/-- Lower-casing of the ASCII letters; it agrees with `toLowerCase` on ASCII strings and is
used where a concrete instance of the platform function is needed. -/
def asciiLower (s : String) : String := ⟨s.data.map Char.toLower⟩

/-! ## Catalog -/

/-- An entry of `definitions`. The field `correctIdx` is absent from the literal in the source
and is written by the timed challenge (`item.correctIdx = correctIdx`). -/
structure DefinitionItem where
  term : String
  definition : String
  keywords : List String
  correctIdx : Option Int := none
deriving DecidableEq, Repr

/-- The constant `definitions` of the source: 29 terms with definition and keywords. -/
def definitions : List DefinitionItem := [
  { term := "Latency",
    definition := "The time delay between a user’s input and the chatbot’s response. In the case study, a complex network of machine learning models increases latency and the critical path determines the response time. Reducing unnecessary models and using appropriate natural language understanding pipelines and large relevant datasets can reduce latency.",
    keywords := ["response time", "critical path", "latency", "delay"] },
  { term := "Lexical analysis",
    definition := "The first stage of natural language processing that breaks an input sentence into tokens (words and sentences). For example, “I want to make a claim about a car accident” becomes [“I”, “want”, “to”, “make”, “a”, “claim”, “about”, “a”, “car”, “accident”].",
    keywords := ["break", "tokens", "words", "sentence"] },
  { term := "Syntactic analysis",
    definition := "Also known as parsing, this stage of natural language processing identifies grammatical structure and parts of speech (subject, verb, object) and analyses phrase relationships.",
    keywords := ["grammar", "structure", "subject", "verb", "object"] },
  { term := "Semantic analysis",
    definition := "The stage of natural language processing that interprets the meaning of the sentence and its words; in the example, it realises the customer wants to make a claim about a car accident.",
    keywords := ["meaning", "interpret", "context"] },
  { term := "Discourse integration",
    definition := "This stage integrates the meaning of the current sentence with the broader context of the conversation; for example, recognising that the user is a customer enquiring about a claim.",
    keywords := ["context", "conversation", "broader"] },
  { term := "Pragmatic analysis",
    definition := "The stage of natural language processing that considers social, legal and cultural context when interpreting a sentence; e.g., inferring that the customer may be injured or have vehicle damage.",
    keywords := ["social", "legal", "cultural", "context"] },
  { term := "Recurrent neural network (RNN)",
    definition := "A type of deep learning model designed to process sequential data. It has an input layer, hidden layers that maintain memory of previous inputs and an output layer. RNNs are trained using backpropagation through time and can suffer from the vanishing gradient problem.",
    keywords := ["sequential", "input layer", "hidden", "output layer", "memory"] },
  { term := "Long short‑term memory (LSTM)",
    definition := "A special kind of recurrent neural network that mitigates the vanishing gradient problem by using a memory cell state and three gates (input, forget and output) to control information flow.",
    keywords := ["gates", "memory cell", "vanishing gradient"] },
  { term := "Transformer neural network",
    definition := "A deep learning model that uses a self‑attention mechanism to capture relationships between words in an input sequence. Transformers power large language models like GPT‑3.",
    keywords := ["self-attention", "transformer", "GPT", "relationships"] },
  { term := "Bag‑of‑words",
    definition := "An algorithm that represents text as a vector of word frequencies. It was used in the chatbot to extract relevant information from user input but can be computationally intensive for large datasets.",
    keywords := ["word frequency", "vector", "bag-of-words"] },
  { term := "Confirmation bias",
    definition := "A dataset bias that occurs when training data favour a particular viewpoint, such as only including queries about certain policies.",
    keywords := ["favour", "viewpoint", "certain", "bias"] },
  { term := "Historical bias",
    definition := "A dataset bias that arises when training data do not reflect recent changes; models trained on outdated data struggle with current queries.",
    keywords := ["historical", "outdated", "recent changes"] },
  { term := "Labelling bias",
    definition := "Bias caused by subjective, inaccurate or overly generic labels applied to training data, making it hard for the model to infer true user intent.",
    keywords := ["label", "subjective", "generic", "bias"] },
  { term := "Linguistic bias",
    definition := "Bias introduced when the dataset overrepresents certain dialects or vocabularies; models trained on formal language may misinterpret informal language.",
    keywords := ["dialect", "vocabulary", "formal", "informal"] },
  { term := "Sampling bias",
    definition := "Bias resulting from a training dataset that is not representative of the overall population, for example when data come from a single demographic.",
    keywords := ["representative", "population", "demographic"] },
  { term := "Selection bias",
    definition := "Bias introduced when training data are intentionally chosen based on criteria that skew towards certain behaviours or demographics.",
    keywords := ["selection", "criteria", "skew"] },
  { term := "Pre‑processing",
    definition := "The initial step applied to raw data to make it usable for machine learning. It involves cleaning, selecting, transforming and reducing data to improve quality.",
    keywords := ["cleaning", "transforming", "reducing", "pre-processing"] },
  { term := "Training",
    definition := "The process of fitting a machine learning model using large amounts of text data. It is computationally intensive, requires GPUs or TPUs and involves hyperparameter tuning and backpropagation through time.",
    keywords := ["training", "GPU", "TPU", "hyperparameter", "backpropagation"] },
  { term := "Deployment",
    definition := "Running a trained model on specialised hardware. Large language models require TPUs and significant storage and memory to perform efficiently.",
    keywords := ["deployment", "hardware", "TPU", "storage"] },
  { term := "Ethical challenges",
    definition := "The considerations that must be addressed when deploying a chatbot: data privacy and security, bias and fairness, accountability and responsibility, transparency of decision making and avoiding misinformation and manipulation.",
    keywords := ["privacy", "bias", "fairness", "accountability", "transparency"] },
  { term := "Natural language understanding (NLU)",
    definition := "A pipeline of machine learning models that transforms unstructured text into machine‑actionable information. Using NLU helps reduce latency by removing unnecessary models.",
    keywords := ["pipeline", "models", "unstructured", "NLU"] },
  { term := "Backpropagation through time (BPTT)",
    definition := "A technique for training recurrent neural networks in which gradients of the loss function are computed at each time step and used to update weights. BPTT can lead to the vanishing gradient problem.",
    keywords := ["gradients", "time", "update", "weights"] },
  { term := "Hyperparameter tuning",
    definition := "Selecting the best values (such as learning rate and number of hidden layers) to optimise model performance.",
    keywords := ["learning rate", "hidden layers", "optimise", "tuning"] },
  { term := "Self‑attention mechanism",
    definition := "A component of transformer neural networks that weights relationships between words in a sequence, enabling models to focus on relevant parts of the input.",
    keywords := ["self-attention", "weights", "relationships", "sequence"] },
  { term := "Synthetic data",
    definition := "Artificially generated data used alongside real data to create a more diverse and unbiased training dataset.",
    keywords := ["synthetic", "artificial", "diverse", "unbiased"] },
  { term := "Vanishing gradient",
    definition := "A problem in training deep networks, especially RNNs, where gradients become very small and the network struggles to learn long‑term dependencies. LSTMs mitigate this issue.",
    keywords := ["vanishing", "gradients", "long-term"] },
  { term := "Dataset",
    definition := "A collection of relevant, unbiased training data used to teach a model. For the chatbot, this includes insurance claim data, customer service data, policy data and medical data, either real or synthetic.",
    keywords := ["collection", "training data", "relevant", "unbiased"] },
  { term := "Graphical Processing Unit (GPU)",
    definition := "Specialised hardware used to accelerate computations during model training.",
    keywords := ["GPU", "hardware", "accelerate", "computations"] },
  { term := "Tensor Processing Unit (TPU)",
    definition := "Dedicated hardware designed to efficiently train and run large language models.",
    keywords := ["TPU", "hardware", "large models"] }]

/-- An entry of `mcQuestions`. -/
structure McQuestion where
  question : String
  options : List String
  answer : Nat
  explanation : String
deriving DecidableEq, Repr

/-- The constant `mcQuestions` of the source: 10 questions with four options each. -/
def mcQuestions : List McQuestion := [
  { question := "Which stage of natural language processing breaks input into tokens?",
    options := ["Lexical analysis", "Semantic analysis", "Pragmatic analysis", "Discourse integration"],
    answer := 0,
    explanation := "Lexical analysis breaks the input text into tokens (words and sentences)." },
  { question := "What does a transformer neural network use to capture relationships between words?",
    options := ["Backpropagation", "Self‑attention", "Bag‑of‑words", "Long short‑term memory"],
    answer := 1,
    explanation := "Transformer networks rely on a self‑attention mechanism to weight relationships between words." },
  { question := "Which dataset bias occurs when data are not representative of the population?",
    options := ["Sampling bias", "Linguistic bias", "Confirmation bias", "Historical bias"],
    answer := 0,
    explanation := "Sampling bias arises when the training data are not representative of the overall population." },
  { question := "What hardware is recommended for deploying large language models?",
    options := ["Central processing unit", "Tensor processing unit", "Graphical processing unit", "Solid state drive"],
    answer := 1,
    explanation := "Tensor processing units (TPUs) are specialised hardware for running large language models." },
  { question := "Which algorithm represents text by counting the frequency of words?",
    options := ["Bag‑of‑words", "Self‑attention", "Vanishing gradient", "Hyperparameter tuning"],
    answer := 0,
    explanation := "Bag‑of‑words transforms text into a vector of word frequencies." },
  { question := "How do LSTMs address the vanishing gradient problem in RNNs?",
    options := ["By using a self‑attention mechanism", "With memory cells and gating mechanisms", "By increasing the number of hidden layers", "Through reinforcement learning"],
    answer := 1,
    explanation := "LSTMs use a memory cell state and gates (input, forget and output) to control information flow and mitigate the vanishing gradient." },
  { question := "Which of the following is NOT part of the five stages of natural language processing?",
    options := ["Lexical analysis", "Syntactic analysis", "Discourse integration", "Backpropagation"],
    answer := 3,
    explanation := "Backpropagation is a training method for neural networks, not a stage in natural language processing." },
  { question := "What does hyperparameter tuning involve?",
    options := ["Selecting optimal values like learning rate and hidden layers", "Encrypting user data", "Generating synthetic data", "Measuring response times"],
    answer := 0,
    explanation := "Hyperparameter tuning searches for the best values (e.g., learning rate) that maximise model performance." },
  { question := "Which bias results from training data favouring a particular viewpoint?",
    options := ["Sampling bias", "Confirmation bias", "Selection bias", "Linguistic bias"],
    answer := 1,
    explanation := "Confirmation bias occurs when the dataset favours specific viewpoints, such as only including certain policy queries." },
  { question := "Which step in the machine learning workflow involves cleaning and transforming raw data?",
    options := ["Deployment", "Pre‑processing", "Training", "Evaluation"],
    answer := 1,
    explanation := "Pre‑processing cleans, selects, transforms and reduces data to improve quality before training." }]

/-! ## Utility functions -/

/-- The destructuring assignment `[array[i], array[j]] = [array[j], array[i]]` for two
positions inside the array; other positions are not reached by `shuffle` when every draw `j`
is at most `i`, and leave the array as it is here. -/
def swap {α : Type} (array : List α) (i j : Nat) : List α :=
  match array[i]?, array[j]? with
  | some x, some y => (array.set i y).set j x
  | _, _ => array

/-- The draws of one run of `shuffle`: `rand i` is the value of
`Math.floor(Math.random() * (i + 1))` in the iteration for `i`, an integer of `[0, i]`
because `Math.random()` lies in `[0, 1)`. -/
abbrev Draws := (i : Nat) → Fin (i + 1)

/-- The loop of `shuffle`, counting `i` down to 1. -/
def shuffleLoop {α : Type} (rand : Draws) : Nat → List α → List α
  | 0, array => array
  | i + 1, array => shuffleLoop rand i (swap array (i + 1) (rand (i + 1)).val)

/-- `shuffle(array)`: Fisher-Yates, `for (let i = array.length - 1; i > 0; i--)`. -/
def shuffle {α : Type} (array : List α) (rand : Draws) : List α :=
  shuffleLoop rand (array.length - 1) array

/-- The draws that pick `j = i` in every iteration: the array keeps its order. -/
def drawLast : Draws := fun i => Fin.last i

/-- The draws that pick `j = 0` in every iteration. -/
def drawFirst : Draws := fun _ => 0

/-- `evaluateAnswer(input, item)`: count the keywords found in the normalised input and
compare the count with the number of keywords. -/
def evaluateAnswer (toLowerCase : String → String) (input : String) (item : DefinitionItem) :
    Bool :=
  let text := toLowerCase (trim input)
  let found := item.keywords.foldl
    (fun m kw => if includes text (toLowerCase kw) then m + 1 else m) 0
  found == item.keywords.length

/-- The item of the flashcard scenario of the specification. -/
def latencyScenario : DefinitionItem :=
  { term := "Latency", definition := "", keywords := ["response time", "critical path"] }

/-! ## JavaScript values and the stored ledger -/

/-- The values `JSON.parse` can return. Numbers are integers: the ledger holds counts, and no
statement below depends on a number with a fraction. An object is the list of its own
properties in insertion order. -/
inductive JsVal where
  | null
  | bool (b : Bool)
  | num (n : Int)
  | str (s : String)
  | arr (xs : List JsVal)
  | obj (props : List (String × JsVal))

/-- Assignment `o[key] = v` on a property list: an existing key keeps its place, a new key is
added at the end. -/
def setProp (o : List (String × JsVal)) (key : String) (v : JsVal) : List (String × JsVal) :=
  match o with
  | [] => [(key, v)]
  | (k, w) :: rest => if k = key then (k, v) :: rest else (k, w) :: setProp rest key v

/-- Read `o[key]`; `none` is `undefined`. -/
def getProp (o : List (String × JsVal)) (key : String) : Option JsVal :=
  match o with
  | [] => none
  | (k, w) :: rest => if k = key then some w else getProp rest key

/-- Index keys "0", "1", ... for the elements of an array or the characters of a string. -/
def indexed (xs : List JsVal) : List (String × JsVal) :=
  ((List.range xs.length).zip xs).map (fun p => (toString p.1, p.2))

/-- The own enumerable properties `Object.assign` copies from a source: those of an object,
the index keys of an array or of a string, none for `null`, a boolean or a number. -/
def ownProps : JsVal → List (String × JsVal)
  | .obj props => props
  | .arr xs => indexed xs
  | .str s => indexed (s.data.map (fun c => JsVal.str ⟨[c]⟩))
  | _ => []

/-- `Object.assign(target, ...sources)`. -/
def objectAssign (target : List (String × JsVal)) (sources : List JsVal) :
    List (String × JsVal) :=
  sources.foldl (fun t src => (ownProps src).foldl (fun t p => setProp t p.1 p.2) t) target

/-- One entry of the ledger, `{ correct, total }`. -/
structure Tally where
  correct : Nat
  total : Nat
deriving DecidableEq, Repr

/-- A well-formed ledger: the four mode entries with their counts. -/
structure Progress where
  flashcards : Tally
  multiple : Tally
  coding : Tally
  timed : Tally
deriving DecidableEq, Repr

/-- The entry as a JavaScript object. -/
def Tally.toJs (t : Tally) : JsVal :=
  .obj [("correct", .num t.correct), ("total", .num t.total)]

/-- The ledger as a JavaScript object, keys in the order of `defaultProgress`. -/
def Progress.toJs (p : Progress) : JsVal :=
  .obj [("flashcards", p.flashcards.toJs), ("multiple", p.multiple.toJs),
        ("coding", p.coding.toJs), ("timed", p.timed.toJs)]

/-- `defaultProgress`. -/
def defaultProgress : Progress :=
  { flashcards := ⟨0, 0⟩, multiple := ⟨0, 0⟩, coding := ⟨0, 0⟩, timed := ⟨0, 0⟩ }

/-- `loadProgress()`, called once when the script starts. `stored` is the result of
`localStorage.getItem('ibcsPaper3Progress')` (`none` for `null`); `parse` is `JSON.parse`,
`none` when it throws. A string is truthy when it is not empty. `{ ...defaultProgress }` is an
object with the properties of `defaultProgress`. -/
def loadProgress (parse : String → Option JsVal) (stored : Option String) : JsVal :=
  match stored with
  | some s =>
    if s ≠ "" then
      match parse s with
      | some obj => .obj (objectAssign [] [defaultProgress.toJs, obj])
      | none => .obj (ownProps defaultProgress.toJs)
    else .obj (ownProps defaultProgress.toJs)
  | none => .obj (ownProps defaultProgress.toJs)

/-- `saveProgress(progress)`: the content of the storage record after
`localStorage.setItem('ibcsPaper3Progress', JSON.stringify(progress))`. -/
def saveProgress (stringify : JsVal → String) (progress : JsVal) : Option String :=
  some (stringify progress)

/-- The modes whose session ends with an update of the ledger. -/
inductive Mode where
  | flashcards
  | multiple
  | timed
deriving DecidableEq, Repr

/-- Number of binary digits of `n` (0 for 0); `fuel` bounds the halvings and `n` itself is
enough. -/
def binaryDigits : Nat → Nat → Nat
  | 0, _ => 0
  | fuel + 1, n => if n = 0 then 0 else binaryDigits fuel (n / 2) + 1

/-- The number value (IEEE 754 double) nearest to the natural number `n`, ties to the even
significand: integers up to 2^53 are number values themselves, a larger one keeps its 53
leading binary digits. This is the value for `n` below 2^1024 - 2^970; from there on the
nearest number value is `Infinity`, which is not a count. -/
def roundDouble (n : Nat) : Nat :=
  if n ≤ 9007199254740992 then n
  else
    let e := binaryDigits n n - 53
    let q := n / 2 ^ e
    let r := n % 2 ^ e
    let half := 2 ^ (e - 1)
    if half < r ∨ (r = half ∧ q % 2 = 1) then (q + 1) * 2 ^ e else q * 2 ^ e

/-- The sum `a + b` of the code for two counts: the counts of the ledger are number values, so
the sum is the number value nearest to the exact sum. A `Nat` count stands for the number
value equal to it. The session counters are incremented from 0 by 1 and are written as `Nat`
sums, which is what the code computes up to 2^53. -/
def jsAdd (a b : Nat) : Nat := roundDouble (a + b)

/-- The end-of-session update of `renderCard`:
`state.progress.flashcards.correct += correctThisSession` and the same for `total`. -/
def foldFlashcards (p : Progress) (correct total : Nat) : Progress :=
  { p with flashcards := ⟨jsAdd p.flashcards.correct correct, jsAdd p.flashcards.total total⟩ }

/-- The end-of-session update of `renderQuestion`. -/
def foldMultiple (p : Progress) (correct total : Nat) : Progress :=
  { p with multiple := ⟨jsAdd p.multiple.correct correct, jsAdd p.multiple.total total⟩ }

/-- The end-of-session update of `nextQuestion`. -/
def foldTimed (p : Progress) (correct total : Nat) : Progress :=
  { p with timed := ⟨jsAdd p.timed.correct correct, jsAdd p.timed.total total⟩ }

/-- The end-of-session update of the given mode. -/
def fold (m : Mode) (p : Progress) (correct total : Nat) : Progress :=
  match m with
  | .flashcards => foldFlashcards p correct total
  | .multiple => foldMultiple p correct total
  | .timed => foldTimed p correct total

/-- The ledger entry of a mode. -/
def Progress.entry (p : Progress) : Mode → Tally
  | .flashcards => p.flashcards
  | .multiple => p.multiple
  | .timed => p.timed

/-! ### A reader and a writer of compact JSON text

A concrete pair for `JSON.stringify` and `JSON.parse`, used where statements are evaluated on
concrete input: the writer emits the compact text of `JSON.stringify`, the reader accepts that
text (no white space between tokens, integers without exponent). -/

/-- Escape the quote and the backslash of a string literal. -/
def escapeChars : List Char → List Char
  | [] => []
  | c :: cs =>
    if c = '"' ∨ c = '\\' then '\\' :: c :: escapeChars cs else c :: escapeChars cs

/-- A quoted string literal. -/
def quote (s : String) : List Char := '"' :: escapeChars s.data ++ ['"']

/-- Texts joined by commas. -/
def joinComma : List (List Char) → List Char
  | [] => []
  | [x] => x
  | x :: y :: rest => x ++ ',' :: joinComma (y :: rest)

mutual
/-- Compact JSON text of a value. -/
def writeVal : JsVal → List Char
  | .null => "null".data
  | .bool true => "true".data
  | .bool false => "false".data
  | .num n => (toString n).data
  | .str s => quote s
  | .arr xs => '[' :: joinComma (writeVals xs) ++ [']']
  | .obj ps => '{' :: joinComma (writeProps ps) ++ ['}']
/-- Texts of the elements of an array. -/
def writeVals : List JsVal → List (List Char)
  | [] => []
  | v :: vs => writeVal v :: writeVals vs
/-- Texts of the properties of an object. -/
def writeProps : List (String × JsVal) → List (List Char)
  | [] => []
  | (k, v) :: ps => (quote k ++ ':' :: writeVal v) :: writeProps ps
end

/-- An instance of `JSON.stringify`. -/
def compactStringify (v : JsVal) : String := ⟨writeVal v⟩

/-- Read a string literal after its opening quote: the content and the remaining text. -/
def readString : List Char → List Char → Option (String × List Char)
  | acc, '"' :: rest => some (⟨acc.reverse⟩, rest)
  | acc, '\\' :: c :: rest =>
    if c = '"' ∨ c = '\\' then readString (c :: acc) rest else none
  | acc, c :: rest => readString (c :: acc) rest
  | _, [] => none

/-- Read decimal digits. -/
def readDigits : Nat → List Char → Nat × List Char
  | acc, c :: rest =>
    if c.isDigit then readDigits (acc * 10 + (c.toNat - 48)) rest else (acc, c :: rest)
  | acc, [] => (acc, [])

mutual
/-- Read one value; the first argument bounds the nesting and the number of elements. -/
def readVal : Nat → List Char → Option (JsVal × List Char)
  | 0, _ => none
  | fuel + 1, cs =>
    match cs with
    | 'n' :: 'u' :: 'l' :: 'l' :: rest => some (.null, rest)
    | 't' :: 'r' :: 'u' :: 'e' :: rest => some (.bool true, rest)
    | 'f' :: 'a' :: 'l' :: 's' :: 'e' :: rest => some (.bool false, rest)
    | '"' :: rest => (readString [] rest).map (fun p => (.str p.1, p.2))
    | '[' :: ']' :: rest => some (.arr [], rest)
    | '[' :: rest => (readVals fuel rest).map (fun p => (.arr p.1, p.2))
    | '{' :: '}' :: rest => some (.obj [], rest)
    | '{' :: rest => (readProps fuel rest).map (fun p => (.obj p.1, p.2))
    | '-' :: c :: rest =>
      if c.isDigit then
        let p := readDigits 0 (c :: rest)
        some (.num (-(p.1 : Int)), p.2)
      else none
    | c :: rest =>
      if c.isDigit then
        let p := readDigits 0 (c :: rest)
        some (.num (p.1 : Int), p.2)
      else none
    | [] => none
/-- Read the elements of an array up to the closing bracket. -/
def readVals : Nat → List Char → Option (List JsVal × List Char)
  | 0, _ => none
  | fuel + 1, cs =>
    match readVal fuel cs with
    | some (v, ',' :: rest) => (readVals fuel rest).map (fun p => (v :: p.1, p.2))
    | some (v, ']' :: rest) => some ([v], rest)
    | _ => none
/-- Read the properties of an object up to the closing brace. -/
def readProps : Nat → List Char → Option (List (String × JsVal) × List Char)
  | 0, _ => none
  | fuel + 1, cs =>
    match cs with
    | '"' :: rest =>
      match readString [] rest with
      | some (k, ':' :: rest2) =>
        match readVal fuel rest2 with
        | some (v, ',' :: rest3) =>
          (readProps fuel rest3).map (fun p => ((k, v) :: p.1, p.2))
        | some (v, '}' :: rest3) => some ([(k, v)], rest3)
        | _ => none
      | _ => none
    | _ => none
end

/-- An instance of `JSON.parse`: `none` when the text is not accepted. -/
def compactParse (s : String) : Option JsVal :=
  match readVal (s.length + 1) s.data with
  | some (v, []) => some v
  | _ => none

/-! ## The application state shared by the game modes -/

/-- The platform functions the sessions call. -/
structure Host where
  toLowerCase : String → String
  stringify : JsVal → String

/-- What a scheduled callback does when it fires: `advance` is the feedback delay
(`index++` and render the next item), `startTimer` is `() => startTimer(bar)`, `tick` is the
callback of the countdown interval. -/
inductive TimerKind where
  | advance
  | startTimer
  | tick
deriving DecidableEq, Repr

/-- The object `state`, the storage record and the timers of the browser. `pending` holds the
scheduled callbacks that have neither fired (for a timeout) nor been cleared; `nextTimer` is
the identifier the next `setTimeout` or `setInterval` returns. -/
structure App where
  progress : Progress
  currentGame : Option String
  storage : Option String
  pending : List (Nat × TimerKind)
  nextTimer : Nat
deriving DecidableEq, Repr

/-- The application at the menu with no callback scheduled. -/
def App.atMenu (progress : Progress) (storage : Option String) (nextTimer : Nat) : App :=
  { progress := progress, currentGame := none, storage := storage, pending := [],
    nextTimer := nextTimer }

/-- `setTimeout(callback, delay)` and `setInterval(callback, delay)`: the callback is
scheduled and its identifier returned. -/
def App.setTimer (a : App) (kind : TimerKind) : App × Nat :=
  ({ a with pending := a.pending ++ [(a.nextTimer, kind)], nextTimer := a.nextTimer + 1 },
   a.nextTimer)

/-- `clearTimeout(id)` and `clearInterval(id)`; nothing happens for `undefined`. -/
def App.clearTimer (a : App) (id : Option Nat) : App :=
  match id with
  | none => a
  | some i => { a with pending := a.pending.filter (fun p => p.1 != i) }

/-- `renderMenu()` on the application state. -/
def App.renderMenu (a : App) : App := { a with currentGame := none }

/-! ## Flashcard game -/

/-- The content of `#app` during a flashcard session: the menu, the card of an item (its
handlers refer to that item), or the summary. -/
inductive FlashScreen where
  | menu
  | card (item : DefinitionItem)
  | summary
deriving DecidableEq, Repr

/-- The closure of `startFlashcards` together with the application state. -/
structure Flashcards where
  app : App
  screen : FlashScreen
  items : List DefinitionItem
  index : Nat
  correctThisSession : Nat
  totalThisSession : Nat
  timeoutId : Option Nat
deriving DecidableEq, Repr

/-- `renderCard()`. -/
def renderCard (host : Host) (s : Flashcards) : Flashcards :=
  let app := s.app.clearTimer s.timeoutId
  match s.items[s.index]? with
  | none =>
    -- `index >= items.length`: end of session
    let progress := foldFlashcards app.progress s.correctThisSession s.totalThisSession
    { s with
      app := { app with progress := progress,
                        storage := saveProgress host.stringify progress.toJs }
      screen := .summary }
  | some item => { s with app := app, screen := .card item }

/-- `startFlashcards()` for a catalog; `rand` are the draws of the shuffle. -/
def startFlashcards (host : Host) (app : App) (catalog : List DefinitionItem) (rand : Draws) :
    Flashcards :=
  renderCard host
    { app := { app with currentGame := some "flashcards" }
      screen := .menu
      items := shuffle catalog rand
      index := 0
      correctThisSession := 0
      totalThisSession := 0
      timeoutId := none }

/-- What can happen during a flashcard session. -/
inductive FlashEvent where
  | submit (userAnswer : String)
  | back
  | fire (id : Nat)
deriving DecidableEq, Repr

/-- One event of a flashcard session; `none` when the event cannot happen in the state (the
button is not on the screen, the timer is not pending). -/
def stepFlashcards (host : Host) (s : Flashcards) : FlashEvent → Option Flashcards
  | .submit userAnswer =>
    match s.screen with
    | .card item =>
      let total := s.totalThisSession + 1
      let correct :=
        if evaluateAnswer host.toLowerCase userAnswer item then s.correctThisSession + 1
        else s.correctThisSession
      let (app, id) := s.app.setTimer .advance
      some { s with app := app, totalThisSession := total, correctThisSession := correct,
                    timeoutId := some id }
    | _ => none
  | .back =>
    match s.screen with
    | .card _ =>
      some { s with app := (s.app.clearTimer s.timeoutId).renderMenu, screen := .menu }
    | .summary => some { s with app := s.app.renderMenu, screen := .menu }
    | .menu => none
  | .fire id =>
    if (id, TimerKind.advance) ∈ s.app.pending then
      let app := { s.app with pending := s.app.pending.filter (fun p => p.1 != id) }
      some (renderCard host { s with app := app, index := s.index + 1 })
    else none

/-- Events in sequence. -/
def runFlashcards (host : Host) : Flashcards → List FlashEvent → Option Flashcards
  | s, [] => some s
  | s, e :: es => (stepFlashcards host s e).bind (fun s1 => runFlashcards host s1 es)

/-- One round of a flashcard session: one answer, then the feedback delay elapses. -/
def roundFlashcards (host : Host) (s : Flashcards) (userAnswer : String) : Option Flashcards :=
  (stepFlashcards host s (.submit userAnswer)).bind (fun s1 =>
    match s1.timeoutId with
    | some id => stepFlashcards host s1 (.fire id)
    | none => none)

/-- Rounds in sequence, one per answer. -/
def roundsFlashcards (host : Host) : Flashcards → List String → Option Flashcards
  | s, [] => some s
  | s, a :: as => (roundFlashcards host s a).bind (fun s1 => roundsFlashcards host s1 as)

/-! ## Multiple choice quiz -/

/-- The content of `#app` during a quiz. -/
inductive QuizScreen where
  | menu
  | question (q : McQuestion)
  | summary
deriving DecidableEq, Repr

/-- The closure of `startMultipleChoice` together with the application state. -/
structure MultipleChoice where
  app : App
  screen : QuizScreen
  questions : List McQuestion
  index : Nat
  correctSession : Nat
  totalSession : Nat
  timeoutId : Option Nat
deriving DecidableEq, Repr

/-- `renderQuestion()`. -/
def renderQuestion (host : Host) (s : MultipleChoice) : MultipleChoice :=
  let app := s.app.clearTimer s.timeoutId
  match s.questions[s.index]? with
  | none =>
    let progress := foldMultiple app.progress s.correctSession s.totalSession
    { s with
      app := { app with progress := progress,
                        storage := saveProgress host.stringify progress.toJs }
      screen := .summary }
  | some q => { s with app := app, screen := .question q }

/-- `startMultipleChoice()` for a question list. -/
def startMultipleChoice (host : Host) (app : App) (catalog : List McQuestion) (rand : Draws) :
    MultipleChoice :=
  renderQuestion host
    { app := { app with currentGame := some "multiple" }
      screen := .menu
      questions := shuffle catalog rand
      index := 0
      correctSession := 0
      totalSession := (shuffle catalog rand).length
      timeoutId := none }

/-- What can happen during a quiz. -/
inductive QuizEvent where
  | click (i : Nat)
  | back
  | fire (id : Nat)
deriving DecidableEq, Repr

/-- One event of a quiz; `none` when the event cannot happen in the state or the handler
raises (`children[q.answer]` is `undefined`). -/
def stepMultipleChoice (host : Host) (s : MultipleChoice) : QuizEvent → Option MultipleChoice
  | .click i =>
    match s.screen with
    | .question q =>
      if i < q.options.length then
        if i = q.answer then
          let (app, id) := s.app.setTimer .advance
          some { s with app := app, correctSession := s.correctSession + 1,
                        timeoutId := some id }
        else if q.answer < q.options.length then
          let (app, id) := s.app.setTimer .advance
          some { s with app := app, timeoutId := some id }
        else none
      else none
    | _ => none
  | .back =>
    match s.screen with
    | .question _ =>
      some { s with app := (s.app.clearTimer s.timeoutId).renderMenu, screen := .menu }
    | .summary => some { s with app := s.app.renderMenu, screen := .menu }
    | .menu => none
  | .fire id =>
    if (id, TimerKind.advance) ∈ s.app.pending then
      let app := { s.app with pending := s.app.pending.filter (fun p => p.1 != id) }
      some (renderQuestion host { s with app := app, index := s.index + 1 })
    else none

/-- Events in sequence. -/
def runMultipleChoice (host : Host) : MultipleChoice → List QuizEvent → Option MultipleChoice
  | s, [] => some s
  | s, e :: es => (stepMultipleChoice host s e).bind (fun s1 => runMultipleChoice host s1 es)

/-- One round of a quiz: one click on an option, then the feedback delay elapses. -/
def roundMultipleChoice (host : Host) (s : MultipleChoice) (i : Nat) : Option MultipleChoice :=
  (stepMultipleChoice host s (.click i)).bind (fun s1 =>
    match s1.timeoutId with
    | some id => stepMultipleChoice host s1 (.fire id)
    | none => none)

/-- Rounds in sequence, one per clicked option. -/
def roundsMultipleChoice (host : Host) : MultipleChoice → List Nat → Option MultipleChoice
  | s, [] => some s
  | s, i :: is => (roundMultipleChoice host s i).bind (fun s1 => roundsMultipleChoice host s1 is)

/-! ## Timed challenge -/

/-- The outcome of the random choices of one call of `nextQuestion`: `order` is the array
left by `.sort(() => Math.random() - 0.5)`, `rand` are the draws of `shuffle`. -/
structure Chance where
  order : List DefinitionItem → List DefinitionItem
  rand : Draws

/-- `array.indexOf(x)`: the first position of `x`, or `-1`. -/
def indexOf (array : List String) (x : String) : Int :=
  if array.indexOf x < array.length then (array.indexOf x : Int) else -1

/-- The content of `#app` during a timed challenge: the menu, a question with its option
elements in display order, or the summary. -/
inductive TimedScreen where
  | menu
  | question (shuffled : List String)
  | summary
deriving DecidableEq, Repr

/-- The closure of `startTimedChallenge` together with the application state. The working set
`items` holds references to the objects of the catalog (`definitions.slice()` copies the
array, not the objects): a reference is the position of the object in `definitions`. -/
structure TimedChallenge where
  app : App
  screen : TimedScreen
  definitions : List DefinitionItem
  items : List Nat
  index : Nat
  correctSession : Nat
  totalSession : Nat
  timeRemaining : Int
  timerInterval : Option Nat
  timeoutId : Option Nat
deriving DecidableEq, Repr

/-- The object the cursor points at, `items[index]`; `none` is `undefined`. -/
def TimedChallenge.current (s : TimedChallenge) : Option DefinitionItem :=
  match s.items[s.index]? with
  | some r => s.definitions[r]?
  | none => none

/-- `nextQuestion()`; `none` only if a reference of the working set points outside the
catalog. -/
def nextQuestion (host : Host) (ch : Chance) (s : TimedChallenge) : Option TimedChallenge :=
  let app := (s.app.clearTimer s.timeoutId).clearTimer s.timerInterval
  match s.items[s.index]? with
  | none =>
    -- `index >= items.length`: end of the challenge
    let progress := foldTimed app.progress s.correctSession s.totalSession
    some { s with
      app := { app with progress := progress,
                        storage := saveProgress host.stringify progress.toJs }
      screen := .summary }
  | some r =>
    match s.definitions[r]? with
    | none => none
    | some item =>
      let wrongOptions :=
        ((ch.order (s.definitions.filter (fun d => d.term != item.term))).take 3).map
          (fun d => d.definition)
      let options := item.definition :: wrongOptions
      let shuffled := shuffle options ch.rand
      let correctIdx := indexOf shuffled item.definition
      let (app, _) := app.setTimer .startTimer
      some { s with
        app := app
        definitions := s.definitions.set r { item with correctIdx := some correctIdx }
        screen := .question shuffled }

/-- The closure of `startTimedChallenge()` for a catalog before its first call of
`nextQuestion`; `rand` are the draws of the shuffle of the working set. -/
def timedInitial (app : App) (catalog : List DefinitionItem) (rand : Draws) : TimedChallenge :=
  let allItems := shuffle (List.range catalog.length) rand
  let questionCount := min 8 allItems.length
  let items := allItems.take questionCount
  { app := { app with currentGame := some "timed" }
    screen := .menu
    definitions := catalog
    items := items
    index := 0
    correctSession := 0
    totalSession := items.length
    timeRemaining := 10
    timerInterval := none
    timeoutId := none }

/-- `startTimedChallenge()`; `ch` are the random choices of the first question. -/
def startTimedChallenge (host : Host) (app : App) (catalog : List DefinitionItem)
    (rand : Draws) (ch : Chance) : Option TimedChallenge :=
  nextQuestion host ch (timedInitial app catalog rand)

/-- `startTimer(bar)`. -/
def startTimer (s : TimedChallenge) : TimedChallenge :=
  let (app, id) := s.app.setTimer .tick
  { s with app := app, timeRemaining := 10, timerInterval := some id }

/-- Number of `.option` elements in the document. -/
def TimedScreen.optionCount : TimedScreen → Nat
  | .question shuffled => shuffled.length
  | _ => 0

/-- Is `optionElements[correctIdx]` an element. -/
def validOption (correctIdx : Option Int) (count : Nat) : Bool :=
  match correctIdx with
  | some k => decide (0 ≤ k) && decide (k < count)
  | none => false

/-- `revealAnswer(selectedIndex)`, `none` for the selection being `null`. The result is
`none` when the function raises: `items[index]` is `undefined`, or the option element it
marks does not exist. -/
def revealAnswer (s : TimedChallenge) (selectedIndex : Option Nat) : Option TimedChallenge :=
  let app := s.app.clearTimer s.timerInterval
  match s.current with
  | none => none
  | some question =>
    let count := s.screen.optionCount
    let correctIdx := question.correctIdx
    let (app1, id) := app.setTimer .advance
    match selectedIndex with
    | some i =>
      if correctIdx = some (i : Int) then
        if i < count then
          some { s with app := app1, correctSession := s.correctSession + 1,
                        timeoutId := some id }
        else none
      else
        if i < count ∧ validOption correctIdx count then
          some { s with app := app1, timeoutId := some id }
        else none
    | none =>
      if validOption correctIdx count then some { s with app := app1, timeoutId := some id }
      else none

/-- The callback of the countdown interval. -/
def tick (s : TimedChallenge) : Option TimedChallenge :=
  let s1 := { s with timeRemaining := s.timeRemaining - 1 }
  if s1.timeRemaining ≤ 0 then
    revealAnswer { s1 with app := s1.app.clearTimer s1.timerInterval } none
  else some s1

/-- What can happen during a timed challenge; a firing timer comes with the random choices of
the question it may render. -/
inductive TimedEvent where
  | click (i : Nat)
  | back
  | fire (id : Nat) (ch : Chance)

/-- One event of a timed challenge; `none` when the event cannot happen in the state or its
handler raises. -/
def stepTimedChallenge (host : Host) (s : TimedChallenge) : TimedEvent → Option TimedChallenge
  | .click i =>
    match s.screen with
    | .question shuffled => if i < shuffled.length then revealAnswer s (some i) else none
    | _ => none
  | .back =>
    match s.screen with
    | .question _ =>
      some { s with
        app := ((s.app.clearTimer s.timeoutId).clearTimer s.timerInterval).renderMenu
        screen := .menu }
    | .summary => some { s with app := s.app.renderMenu, screen := .menu }
    | .menu => none
  | .fire id ch =>
    match s.app.pending.lookup id with
    | some .advance =>
      let app := { s.app with pending := s.app.pending.filter (fun p => p.1 != id) }
      nextQuestion host ch { s with app := app, index := s.index + 1 }
    | some .startTimer =>
      let app := { s.app with pending := s.app.pending.filter (fun p => p.1 != id) }
      some (startTimer { s with app := app })
    | some .tick => tick s
    | none => none

/-- Events in sequence. -/
def runTimedChallenge (host : Host) : TimedChallenge → List TimedEvent → Option TimedChallenge
  | s, [] => some s
  | s, e :: es => (stepTimedChallenge host s e).bind (fun s1 => runTimedChallenge host s1 es)

/-- The same event a number of times. -/
def repeatTimed (host : Host) (e : TimedChallenge → Option TimedEvent) :
    Nat → TimedChallenge → Option TimedChallenge
  | 0, s => some s
  | n + 1, s =>
    match e s with
    | some ev => (stepTimedChallenge host s ev).bind (repeatTimed host e n)
    | none => none

/-- The pending `startTimer` callback, scheduled by `nextQuestion`. -/
def TimedChallenge.countdownStart (s : TimedChallenge) : Option Nat :=
  (s.app.pending.find? (fun p => p.2 = TimerKind.startTimer)).map (fun p => p.1)

/-- One round of a timed challenge: the countdown starts; the user, who sees the options,
clicks one of them (`answer shuffled = some i`) or lets the ten ticks of the countdown elapse
(`none`); the feedback delay elapses and the next question is rendered with the random
choices `ch`. -/
def roundTimedChallenge (host : Host) (s : TimedChallenge)
    (answer : List String → Option Nat) (ch : Chance) : Option TimedChallenge :=
  match s.countdownStart with
  | none => none
  | some t =>
    (stepTimedChallenge host s (.fire t ch)).bind (fun s1 =>
      (match s1.screen with
        | .question shuffled =>
          match answer shuffled with
          | some i => stepTimedChallenge host s1 (.click i)
          | none =>
            repeatTimed host (fun u => u.timerInterval.map (fun id => TimedEvent.fire id ch))
              10 s1
        | _ => none).bind (fun s2 =>
        match s2.timeoutId with
        | some id => stepTimedChallenge host s2 (.fire id ch)
        | none => none))

/-- Rounds in sequence, one per answer with the random choices of the question that
follows. -/
def roundsTimedChallenge (host : Host) :
    TimedChallenge → List ((List String → Option Nat) × Chance) → Option TimedChallenge
  | s, [] => some s
  | s, a :: as =>
    (roundTimedChallenge host s a.1 a.2).bind (fun s1 => roundsTimedChallenge host s1 as)

/-- The property name of a mode in the ledger. -/
def Mode.key : Mode → String
  | .flashcards => "flashcards"
  | .multiple => "multiple"
  | .timed => "timed"

/-- The platform functions used where statements are evaluated on concrete input. -/
def referenceHost : Host := { toLowerCase := asciiLower, stringify := compactStringify }

/-- A ledger after some play, used as concrete input. -/
def sampleProgress : Progress :=
  { flashcards := ⟨3, 5⟩, multiple := ⟨7, 10⟩, coding := ⟨0, 0⟩, timed := ⟨2, 8⟩ }

/-! ## Invariants of the sessions -/

/-- The state of a flashcard session on the working set `items`, started from the ledger
`progress` and the storage record `storage`, after `k` rounds: the cursor and the session
total are `k` and no callback is pending; while an item is left its card is shown and the
ledger and the record are untouched; after the last item the summary is shown and the
session's counts have been added to the ledger and saved. -/
def FlashcardsAfter (host : Host) (items : List DefinitionItem) (progress : Progress)
    (storage : Option String) (k : Nat) (s : Flashcards) : Prop :=
  s.items = items ∧ s.index = k ∧ s.totalThisSession = k ∧ s.app.pending = [] ∧
  match items[k]? with
  | some item => s.screen = .card item ∧ s.app.progress = progress ∧ s.app.storage = storage
  | none =>
    s.screen = .summary ∧
    s.app.progress = foldFlashcards progress s.correctThisSession k ∧
    s.app.storage =
      saveProgress host.stringify (foldFlashcards progress s.correctThisSession k).toJs

/-- The state of a quiz on the working set `questions` after `k` rounds. -/
def MultipleChoiceAfter (host : Host) (questions : List McQuestion) (progress : Progress)
    (storage : Option String) (k : Nat) (s : MultipleChoice) : Prop :=
  s.questions = questions ∧ s.index = k ∧ s.totalSession = questions.length ∧
  s.app.pending = [] ∧
  match questions[k]? with
  | some q => s.screen = .question q ∧ s.app.progress = progress ∧ s.app.storage = storage
  | none =>
    s.screen = .summary ∧
    s.app.progress = foldMultiple progress s.correctSession questions.length ∧
    s.app.storage =
      saveProgress host.stringify
        (foldMultiple progress s.correctSession questions.length).toJs

/-- The index recorded on `item` is a position of the option list `shuffled` and the option
at that position is the definition of the item. -/
def RecordedCorrect (item : DefinitionItem) (shuffled : List String) : Prop :=
  ∃ c : Nat, item.correctIdx = some (c : Int) ∧ c < shuffled.length ∧
    shuffled[c]? = some item.definition

/-- The state of a timed challenge on the working set `items` over a catalog of `n` objects
after `k` rounds: while an item is left its question is shown with the correct index recorded
on the item, the callback that starts the countdown is the one pending callback and the
ledger and the record are untouched; after the last item the summary is shown, nothing is
pending and the session's counts have been added to the ledger and saved. -/
def TimedAfter (host : Host) (items : List Nat) (n : Nat) (progress : Progress)
    (storage : Option String) (k : Nat) (s : TimedChallenge) : Prop :=
  s.items = items ∧ s.index = k ∧ s.totalSession = items.length ∧ s.definitions.length = n ∧
  match items[k]? with
  | some r =>
    ∃ (shuffled : List String) (item : DefinitionItem) (t : Nat),
      s.screen = .question shuffled ∧ s.definitions[r]? = some item ∧
      RecordedCorrect item shuffled ∧ s.app.pending = [(t, TimerKind.startTimer)] ∧
      s.app.progress = progress ∧ s.app.storage = storage
  | none =>
    s.screen = .summary ∧ s.app.pending = [] ∧
    s.app.progress = foldTimed progress s.correctSession items.length ∧
    s.app.storage =
      saveProgress host.stringify (foldTimed progress s.correctSession items.length).toJs

/-- The part of the state of a timed challenge that stays as it is while the question of the
item `items[k]`, the object `item` at position `r` of the catalog, is on the screen with the
options `shuffled`. -/
def TimedShown (items : List Nat) (n : Nat) (progress : Progress) (storage : Option String)
    (k r : Nat) (item : DefinitionItem) (shuffled : List String) (s : TimedChallenge) : Prop :=
  s.items = items ∧ s.index = k ∧ s.totalSession = items.length ∧ s.definitions.length = n ∧
  items[k]? = some r ∧ s.screen = .question shuffled ∧ s.definitions[r]? = some item ∧
  RecordedCorrect item shuffled ∧ s.app.progress = progress ∧ s.app.storage = storage

/-- The current item exists and the index recorded on it is a position of the options on the
screen: `revealAnswer(null)` finds the option element it marks. -/
def TimedChallenge.canReveal (s : TimedChallenge) : Bool :=
  match s.current with
  | some question => validOption question.correctIdx s.screen.optionCount
  | none => false

/-! ## Concrete sessions on the catalog of the source -/

/-- Random choices that keep every order: the sort leaves the array as it is and every draw of
the shuffle is `j = i`. -/
def chanceIdentity : Chance := { order := fun l => l, rand := drawLast }

/-- The user who clicks the first option on the screen. -/
def clickFirst (shuffled : List String) : Option Nat :=
  if 0 < shuffled.length then some 0 else none

/-- A flashcard session on `definitions`, started with the all-zero ledger and an empty storage
record: the user types an answer that holds every keyword of the first card, then presses
"Back to menu". -/
def abandonedFlashcards : Option Flashcards :=
  runFlashcards referenceHost
    (startFlashcards referenceHost (App.atMenu defaultProgress none 1) definitions drawLast)
    [.submit "The delay before the response; the critical path sets the response time: latency",
     .back]

/-- A timed challenge on `definitions`, started with the all-zero ledger. -/
def sampleTimedStart : Option TimedChallenge :=
  startTimedChallenge referenceHost (App.atMenu defaultProgress none 1) definitions drawLast
    chanceIdentity

/-- The timed challenge after the countdown of the first question has started and `n` ticks
have elapsed. -/
def sampleTimedTicks (n : Nat) : Option TimedChallenge :=
  sampleTimedStart.bind (fun s0 =>
    (s0.countdownStart.bind (fun t =>
      stepTimedChallenge referenceHost s0 (.fire t chanceIdentity))).bind (fun s1 =>
        repeatTimed referenceHost
          (fun u => u.timerInterval.map (fun id => TimedEvent.fire id chanceIdentity)) n s1))

/-- The state of that challenge when one tick of the first countdown is left. -/
def sampleTimedLastTick : TimedChallenge := (sampleTimedTicks 9).get (by decide)

/-! ## Distractors of a timed question -/

/-- The array `definitions.filter((def) => def.term !== item.term)` of `nextQuestion`: the
catalog items whose term differs from the term of the current item. -/
def otherItems (catalog : List DefinitionItem) (item : DefinitionItem) : List DefinitionItem :=
  catalog.filter (fun d => d.term != item.term)

/-- The array `wrongOptions` of `nextQuestion`: the definitions of the first three items of
the randomly sorted other items. -/
def wrongOptions (ch : Chance) (catalog : List DefinitionItem) (item : DefinitionItem) :
    List String :=
  ((ch.order (otherItems catalog item)).take 3).map (fun d => d.definition)

/-! ## A lower-casing with the final sigma

`toLowerCase` follows the Unicode default case conversion, in which the lower case of the
capital sigma depends on its context (condition Final_Sigma of the special casing). The
definitions below are that conversion on the strings whose characters are ASCII characters
(U+0000 to U+007F) or Greek letters of U+0391 to U+03CE; other characters are outside their
table. -/

/-- Is the character cased, among the characters of the table: the ASCII letters and the
Greek letters U+0391 to U+03CE (U+03A2 is unassigned). -/
def isCasedLetter (c : Char) : Bool :=
  c.isAlpha || (0x391 ≤ c.toNat && c.toNat ≤ 0x3CE && c.toNat != 0x3A2)

/-- Is the character case-ignorable, among the characters of the table: the apostrophe
U+0027, the full stop U+002E, the colon U+003A, the circumflex accent U+005E and the grave
accent U+0060. -/
def isCaseIgnorable (c : Char) : Bool :=
  c.toNat == 0x27 || c.toNat == 0x2E || c.toNat == 0x3A || c.toNat == 0x5E || c.toNat == 0x60

/-- Lower case of one character whatever its neighbours: the ASCII capitals and the Greek
capitals U+0391 to U+03AB, the capital sigma U+03A3 going to the small sigma U+03C3. -/
def lowerLetter (c : Char) : Char :=
  if 0x391 ≤ c.toNat && c.toNat ≤ 0x3AB && c.toNat != 0x3A2 then Char.ofNat (c.toNat + 32)
  else c.toLower

/-- Do the characters start with zero or more case-ignorable characters and then a cased
letter. -/
def casedLetterFollows : List Char → Bool
  | [] => false
  | d :: rest => isCasedLetter d || (isCaseIgnorable d && casedLetterFollows rest)

/-- Lower-casing from left to right; `afterLetter` says whether the characters before end in
a cased letter and then zero or more case-ignorable characters. A capital sigma in that
position that is not followed by zero or more case-ignorable characters and then a cased
letter becomes the final sigma U+03C2: the condition Final_Sigma. -/
def sigmaLowerFrom (afterLetter : Bool) : List Char → List Char
  | [] => []
  | c :: rest =>
    (if c.toNat = 0x3A3 ∧ afterLetter = true ∧ casedLetterFollows rest = false
      then Char.ofNat 0x3C2 else lowerLetter c) ::
      sigmaLowerFrom (isCasedLetter c || (isCaseIgnorable c && afterLetter)) rest

/-- The value of `toLowerCase` on strings of ASCII characters and Greek letters of U+0391 to
U+03CE. -/
def sigmaLower (s : String) : String := ⟨sigmaLowerFrom false s.data⟩

/-- An item whose one keyword is the final sigma. -/
def finalSigmaItem : DefinitionItem :=
  { term := "Final sigma", definition := "ς", keywords := ["ς"] }

/-! ## Coding practice -/

/-- An entry of `codingTopics`. -/
structure CodingTopic where
  id : String
  title : String
  starter : String
deriving DecidableEq, Repr

/-- The content of `#app` during coding practice: the main menu, the topic menu, or the editor
of a topic with the text of its textarea and of its feedback line. -/
inductive CodingScreen where
  | menu
  | topicMenu
  | editor (topic : CodingTopic) (code : String) (feedback : String)
deriving DecidableEq, Repr

/-- The application state during coding practice, with the collection the closures of
`startCoding` read. -/
structure Coding where
  app : App
  screen : CodingScreen
  codingTopics : List CodingTopic
deriving DecidableEq, Repr

/-- `startCoding()`, which ends with `renderTopicMenu()`. -/
def startCoding (app : App) (catalog : List CodingTopic) : Coding :=
  { app := { app with currentGame := some "coding" }
    screen := .topicMenu
    codingTopics := catalog }

/-- What can happen during coding practice: a click on the button of topic `i`, typing into
the textarea, "Run (local)", "Back to topics", "Back to menu". -/
inductive CodingEvent where
  | openTopic (i : Nat)
  | edit (code : String)
  | run
  | backToTopics
  | backToMenu
deriving DecidableEq, Repr

/-- One event of coding practice; `none` when the event cannot happen in the state.
`renderEditor(topic)` puts `topic.starter` into the textarea. -/
def stepCoding (s : Coding) : CodingEvent → Option Coding
  | .openTopic i =>
    match s.screen with
    | .topicMenu =>
      match s.codingTopics[i]? with
      | some topic => some { s with screen := .editor topic topic.starter "" }
      | none => none
    | _ => none
  | .edit code =>
    match s.screen with
    | .editor topic _ feedback => some { s with screen := .editor topic code feedback }
    | _ => none
  | .run =>
    match s.screen with
    | .editor topic code _ =>
      some { s with
        screen := .editor topic code
          "Code submitted. Execution is not available in this demo." }
    | _ => none
  | .backToTopics =>
    match s.screen with
    | .editor _ _ _ => some (startCoding s.app s.codingTopics)
    | _ => none
  | .backToMenu =>
    match s.screen with
    | .topicMenu => some { s with app := s.app.renderMenu, screen := .menu }
    | _ => none

/-- Events in sequence. -/
def runCoding : Coding → List CodingEvent → Option Coding
  | s, [] => some s
  | s, e :: es => (stepCoding s e).bind (fun s1 => runCoding s1 es)

/-- The fields of a definition item that the source's literal gives it. -/
def DefinitionItem.content (d : DefinitionItem) : String × String × List String :=
  (d.term, d.definition, d.keywords)

/-! ## Repeated answers on one item -/

/-- The flashcard session on `definitions`, started with the all-zero ledger. -/
def sampleFlashcardsStart : Flashcards :=
  startFlashcards referenceHost (App.atMenu defaultProgress none 1) definitions drawLast

/-- On the first card "Submit" is pressed three times within the feedback delay (timers 1, 2
and 3 are set), then timer 1 fires. -/
def threeSubmitsFirstTimer : Option Flashcards :=
  runFlashcards referenceHost sampleFlashcardsStart
    [.submit "", .submit "", .submit "", .fire 1]

/-- After that, timer 2 fires as well. -/
def threeSubmitsSecondTimer : Option Flashcards :=
  threeSubmitsFirstTimer.bind (fun s => stepFlashcards referenceHost s (.fire 2))

/-- The first 28 cards are answered once each (timers 1 to 28); on the last card "Submit" is
pressed three times (timers 29, 30 and 31), then timer 29 fires. -/
def lastCardFirstTimer : Option Flashcards :=
  (roundsFlashcards referenceHost sampleFlashcardsStart (List.replicate 28 "")).bind (fun s =>
    runFlashcards referenceHost s [.submit "", .submit "", .submit "", .fire 29])

/-- After that, timer 30 fires as well. -/
def lastCardSecondTimer : Option Flashcards :=
  lastCardFirstTimer.bind (fun s => stepFlashcards referenceHost s (.fire 30))

/-- The term on the card on the screen. -/
def FlashScreen.term : FlashScreen → Option String
  | .card item => some item.term
  | _ => none

/-- A quiz on `mcQuestions` in catalog order: the correct option of the first question is
clicked twice before the first of the two timers fires, every other question is answered
correctly once. -/
def overcountQuizEvents : List QuizEvent :=
  [.click 0, .click 0, .fire 1,
   .click 1, .fire 3, .click 0, .fire 4, .click 1, .fire 5, .click 0, .fire 6,
   .click 1, .fire 7, .click 3, .fire 8, .click 0, .fire 9, .click 1, .fire 10,
   .click 1, .fire 11]

/-- A timed challenge on `definitions` with the identity choices (the correct option is the
first one): the countdown starts, the correct option of the first question is clicked twice
before the first of the two feedback timers fires; every other question is answered correctly
once after its countdown has started. -/
def overcountTimedEvents : List TimedEvent :=
  [.fire 1 chanceIdentity, .click 0, .click 0, .fire 3 chanceIdentity,
   .fire 5 chanceIdentity, .click 0, .fire 7 chanceIdentity,
   .fire 8 chanceIdentity, .click 0, .fire 10 chanceIdentity,
   .fire 11 chanceIdentity, .click 0, .fire 13 chanceIdentity,
   .fire 14 chanceIdentity, .click 0, .fire 16 chanceIdentity,
   .fire 17 chanceIdentity, .click 0, .fire 19 chanceIdentity,
   .fire 20 chanceIdentity, .click 0, .fire 22 chanceIdentity,
   .fire 23 chanceIdentity, .click 0, .fire 25 chanceIdentity]

/-- The third entry of `definitions`. -/
def syntacticAnalysis : DefinitionItem :=
  { term := "Syntactic analysis",
    definition := "Also known as parsing, this stage of natural language processing identifies grammatical structure and parts of speech (subject, verb, object) and analyses phrase relationships.",
    keywords := ["grammar", "structure", "subject", "verb", "object"] }

/-! ## Theorems -/

theorem includesChars_iff (text kw : List Char) :
    includesChars text kw = true ↔ kw <:+: text := by
  induction text with
  | nil => simp [includesChars]
  | cons c t ih =>
    simp only [includesChars, Bool.or_eq_true, List.isPrefixOf_iff_prefix, ih]
    exact List.infix_cons_iff.symm

theorem foldl_count_eq {α : Type} (p : α → Bool) (l : List α) (n : Nat) :
    l.foldl (fun m a => if p a then m + 1 else m) n = n + l.countP p := by
  induction l generalizing n with
  | nil => simp
  | cons a l ih =>
    simp only [List.foldl_cons, List.countP_cons, ih]
    by_cases h : p a = true <;> simp [h]
    omega

/-- C1: `evaluateAnswer(input, item)` is true exactly when every keyword of the item,
lower-cased, occurs as a substring of the trimmed, lower-cased input (for every lower-casing
function); on the scenario item with keywords "response time" and "critical path" the first
input of the scenario is rejected and the second accepted. -/
theorem evaluateAnswer_iff_all_keywords :
    (∀ (toLowerCase : String → String) (input : String) (item : DefinitionItem),
      evaluateAnswer toLowerCase input item = true ↔
        ∀ kw ∈ item.keywords,
          (toLowerCase kw).data <:+: (toLowerCase (trim input)).data) ∧
    evaluateAnswer asciiLower "the time delay and critical path matter" latencyScenario
      = false ∧
    evaluateAnswer asciiLower "this affects response time via the critical path"
      latencyScenario = true := by
  refine ⟨?_, by decide, by decide⟩
  intro toLowerCase input item
  have h := foldl_count_eq
    (fun kw => includes (toLowerCase (trim input)) (toLowerCase kw)) item.keywords 0
  simp only [evaluateAnswer, h, Nat.zero_add, beq_iff_eq, List.countP_eq_length]
  simp only [includes, includesChars_iff]

theorem cons_set_perm {α : Type} (a y : α) :
    ∀ (l : List α) (j : Nat), l[j]? = some y → (y :: l.set j a).Perm (a :: l) := by
  intro l
  induction l with
  | nil => intro j h; simp at h
  | cons b l ih =>
    intro j h
    cases j with
    | zero =>
      simp only [List.getElem?_cons_zero, Option.some.injEq] at h
      subst h
      simpa using List.Perm.swap a b l
    | succ j =>
      simp only [List.getElem?_cons_succ] at h
      simp only [List.set_cons_succ]
      exact ((List.Perm.swap b y _).trans ((ih j h).cons b)).trans (List.Perm.swap a b l)

theorem set_set_perm {α : Type} :
    ∀ (l : List α) (i j : Nat) (x y : α), l[i]? = some x → l[j]? = some y →
      ((l.set i y).set j x).Perm l := by
  intro l
  induction l with
  | nil => intro i j x y h; simp at h
  | cons a l ih =>
    intro i j x y hi hj
    cases i with
    | zero =>
      simp only [List.getElem?_cons_zero, Option.some.injEq] at hi
      subst hi
      cases j with
      | zero =>
        simp only [List.getElem?_cons_zero, Option.some.injEq] at hj
        subst hj
        simp
      | succ j =>
        simp only [List.getElem?_cons_succ] at hj
        simpa using cons_set_perm a y l j hj
    | succ i =>
      simp only [List.getElem?_cons_succ] at hi
      cases j with
      | zero =>
        simp only [List.getElem?_cons_zero, Option.some.injEq] at hj
        subst hj
        simpa using cons_set_perm a x l i hi
      | succ j =>
        simp only [List.getElem?_cons_succ] at hj
        simpa using (ih i j x y hi hj).cons a

theorem swap_perm {α : Type} (array : List α) (i j : Nat) : (swap array i j).Perm array := by
  unfold swap
  split
  · next x y hx hy => exact set_set_perm array i j x y hx hy
  · exact List.Perm.refl _

theorem shuffleLoop_perm {α : Type} (rand : Draws) :
    ∀ (i : Nat) (array : List α), (shuffleLoop rand i array).Perm array := by
  intro i
  induction i with
  | zero => intro array; exact List.Perm.refl _
  | succ i ih =>
    intro array
    exact (ih _).trans (swap_perm array (i + 1) (rand (i + 1)).val)

theorem shuffle_perm_aux {α : Type} (array : List α) (rand : Draws) :
    (shuffle array rand).Perm array := shuffleLoop_perm rand _ array

theorem shuffle_length {α : Type} (array : List α) (rand : Draws) :
    (shuffle array rand).length = array.length := (shuffle_perm_aux array rand).length_eq

/-- C2: for every array and every sequence of draws `j` in `[0, i]`, `shuffle` returns an
array of the same length that is a permutation of the input, and the empty and the singleton
array are returned unchanged. -/
theorem shuffle_perm {α : Type} (array : List α) (rand : Draws) :
    (shuffle array rand).length = array.length ∧
    (shuffle array rand).Perm array ∧
    (shuffle ([] : List α) rand = []) ∧
    (∀ a : α, shuffle [a] rand = [a]) := by
  refine ⟨shuffle_length array rand, shuffle_perm_aux array rand, rfl, fun a => rfl⟩

/-! ### Ledger -/

theorem roundDouble_of_le (n : Nat) (h : n ≤ 2 ^ 53) : roundDouble n = n := by
  have h2 : n ≤ 9007199254740992 := by norm_num at h; exact h
  unfold roundDouble
  rw [if_pos h2]

theorem jsAdd_of_le (a b : Nat) (h : a + b ≤ 2 ^ 53) : jsAdd a b = a + b :=
  roundDouble_of_le (a + b) h

theorem fold_entry (m : Mode) (L : Progress) (c t : Nat) :
    (fold m L c t).entry m = ⟨jsAdd (L.entry m).correct c, jsAdd (L.entry m).total t⟩ := by
  cases m <;> rfl

theorem fold_entry_other (m m2 : Mode) (L : Progress) (c t : Nat) (h : m2 ≠ m) :
    (fold m L c t).entry m2 = L.entry m2 := by
  cases m <;> cases m2 <;> first | rfl | exact absurd rfl h

theorem fold_coding (m : Mode) (L : Progress) (c t : Nat) : (fold m L c t).coding = L.coding := by
  cases m <;> rfl

/-- C4, counterexample: the count 2^53 is a number value, and folding (1, 1) into a flashcards
entry of {2^53, 2^53} leaves the entry at {2^53, 2^53}: the sum of the code is the number value
nearest to 2^53 + 1, which is 2^53, not {2^53 + 1, 2^53 + 1}. -/
theorem fold_past_exact_range_not_sum :
    roundDouble (2 ^ 53) = 2 ^ 53 ∧
    (fold .flashcards { defaultProgress with flashcards := ⟨2 ^ 53, 2 ^ 53⟩ } 1 1).entry
      .flashcards = ⟨2 ^ 53, 2 ^ 53⟩ ∧
    (⟨2 ^ 53, 2 ^ 53⟩ : Tally) ≠ ⟨2 ^ 53 + 1, 2 ^ 53 + 1⟩ := by
  decide

/-- C4, amended: when the sums of the entry's counts and the session's counts are at most 2^53,
the end-of-session update of a mode leaves in the entry of that mode exactly the entry's counts
plus the session's counts. For all counts the update leaves the entries of the other modes,
`coding` included, as they were. From the all-zero ledger, folding (3, 5) and then (1, 2) into
flashcards gives {3, 5} and then {4, 7}. -/
theorem fold_adds_to_entry_only (L : Progress) (m : Mode) (c t : Nat)
    (hc : (L.entry m).correct + c ≤ 2 ^ 53) (ht : (L.entry m).total + t ≤ 2 ^ 53) :
    (fold m L c t).entry m = ⟨(L.entry m).correct + c, (L.entry m).total + t⟩ ∧
    (∀ m2 : Mode, (fold m L c t).entry m2 =
      if m2 = m then ⟨(L.entry m).correct + c, (L.entry m).total + t⟩ else L.entry m2) ∧
    (fold m L c t).coding = L.coding ∧
    (∀ (L1 : Progress) (m1 : Mode) (c1 t1 : Nat),
      (∀ m2 : Mode, m2 ≠ m1 → (fold m1 L1 c1 t1).entry m2 = L1.entry m2) ∧
      (fold m1 L1 c1 t1).coding = L1.coding) ∧
    fold .flashcards defaultProgress 3 5 =
      { defaultProgress with flashcards := ⟨3, 5⟩ } ∧
    fold .flashcards (fold .flashcards defaultProgress 3 5) 1 2 =
      { defaultProgress with flashcards := ⟨4, 7⟩ } := by
  have hm : (fold m L c t).entry m = ⟨(L.entry m).correct + c, (L.entry m).total + t⟩ := by
    rw [fold_entry, jsAdd_of_le _ _ hc, jsAdd_of_le _ _ ht]
  refine ⟨hm, ?_, fold_coding m L c t, ?_, by decide, by decide⟩
  · intro m2
    by_cases h : m2 = m
    · rw [if_pos h, h]
      exact hm
    · rw [if_neg h]
      exact fold_entry_other m m2 L c t h
  · intro L1 m1 c1 t1
    exact ⟨fun m2 h => fold_entry_other m1 m2 L1 c1 t1 h, fold_coding m1 L1 c1 t1⟩

theorem fold_adds_to_entry_only_witness :
    (defaultProgress.entry .flashcards).correct + 3 ≤ 2 ^ 53 ∧
    (defaultProgress.entry .flashcards).total + 5 ≤ 2 ^ 53 ∧
    (fold .flashcards defaultProgress 3 5).entry .flashcards = ⟨0 + 3, 0 + 5⟩ :=
  ⟨by decide, by decide,
   (fold_adds_to_entry_only defaultProgress .flashcards 3 5 (by decide) (by decide)).1⟩

theorem objectAssign_default_ledger (L : Progress) :
    objectAssign [] [defaultProgress.toJs, L.toJs] = ownProps L.toJs := by
  simp [objectAssign, ownProps, Progress.toJs, setProp]

theorem loadProgress_of_parse (parse : String → Option JsVal) (s : String) (v : JsVal)
    (hne : s ≠ "") (hparse : parse s = some v) :
    loadProgress parse (some s) = .obj (objectAssign [] [defaultProgress.toJs, v]) := by
  simp [loadProgress, hne, hparse]

theorem loadProgress_saveProgress (parse : String → Option JsVal) (stringify : JsVal → String)
    (L : Progress) (hparse : parse (stringify L.toJs) = some L.toJs)
    (hne : stringify L.toJs ≠ "") :
    loadProgress parse (saveProgress stringify L.toJs) = L.toJs := by
  rw [saveProgress, loadProgress_of_parse parse _ _ hne hparse, objectAssign_default_ledger]
  rfl

/-- C5: when `JSON.parse` reads back what `JSON.stringify` wrote for the ledger `L` (and that
text is not empty), `saveProgress(L)` followed by `loadProgress()` returns `L`; hence, when
`L` is the result of folding (c, t) into mode `m` of a ledger `L0`, the loaded entries of the
other modes are those of `L0`, and when the sums of the entry's counts and (c, t) are at most
2^53 the loaded entry of `m` is the entry of `L0` plus (c, t). -/
theorem ledger_round_trip (parse : String → Option JsVal) (stringify : JsVal → String)
    (L : Progress) (hparse : parse (stringify L.toJs) = some L.toJs)
    (hne : stringify L.toJs ≠ "") :
    loadProgress parse (saveProgress stringify L.toJs) = L.toJs ∧
    ∀ (L0 : Progress) (m : Mode) (c t : Nat), L = fold m L0 c t →
      (∀ m2 : Mode, m2 ≠ m →
        getProp (ownProps (loadProgress parse (saveProgress stringify L.toJs))) m2.key =
          some (L0.entry m2).toJs) ∧
      getProp (ownProps (loadProgress parse (saveProgress stringify L.toJs))) "coding" =
        some L0.coding.toJs ∧
      ((L0.entry m).correct + c ≤ 2 ^ 53 → (L0.entry m).total + t ≤ 2 ^ 53 →
        ∀ m2 : Mode,
          getProp (ownProps (loadProgress parse (saveProgress stringify L.toJs))) m2.key =
            some (if m2 = m then
                Tally.toJs ⟨(L0.entry m).correct + c, (L0.entry m).total + t⟩
              else (L0.entry m2).toJs)) := by
  refine ⟨loadProgress_saveProgress parse stringify L hparse hne, ?_⟩
  intro L0 m c t hL
  rw [loadProgress_saveProgress parse stringify L hparse hne, hL]
  have hall : ∀ m2 : Mode,
      getProp (ownProps (fold m L0 c t).toJs) m2.key =
        some (if m2 = m then
            Tally.toJs ⟨jsAdd (L0.entry m).correct c, jsAdd (L0.entry m).total t⟩
          else (L0.entry m2).toJs) := by
    intro m2
    cases m <;> cases m2 <;>
      simp [fold, foldFlashcards, foldMultiple, foldTimed, Progress.entry, Progress.toJs,
        ownProps, getProp, Mode.key]
  refine ⟨?_, ?_, ?_⟩
  · intro m2 h
    rw [hall m2, if_neg h]
  · cases m <;>
      simp [fold, foldFlashcards, foldMultiple, foldTimed, Progress.toJs, ownProps, getProp]
  · intro hc ht m2
    rw [hall m2, jsAdd_of_le _ _ hc, jsAdd_of_le _ _ ht]

theorem ledger_round_trip_witness :
    compactParse (compactStringify sampleProgress.toJs) = some sampleProgress.toJs ∧
    compactStringify sampleProgress.toJs ≠ "" ∧
    loadProgress compactParse (saveProgress compactStringify sampleProgress.toJs) =
      sampleProgress.toJs :=
  ⟨rfl, by decide,
   (ledger_round_trip compactParse compactStringify sampleProgress rfl (by decide)).1⟩

/-- C6, counterexample: the stored text `{"flashcards":5}` is parseable and is not a mapping
from mode names to pairs of counts; `loadProgress` returns a ledger whose `flashcards` entry
is the number 5, not the all-zero default ledger. -/
theorem loadProgress_malformed_not_default :
    compactParse "\x7b\"flashcards\":5\x7d" = some (.obj [("flashcards", .num 5)]) ∧
    getProp (ownProps (loadProgress compactParse (some "\x7b\"flashcards\":5\x7d")))
      "flashcards" = some (.num 5) ∧
    loadProgress compactParse (some "\x7b\"flashcards\":5\x7d") ≠ defaultProgress.toJs := by
  have h : loadProgress compactParse (some "\x7b\"flashcards\":5\x7d") =
      .obj [("flashcards", .num 5), ("multiple", defaultProgress.multiple.toJs),
        ("coding", defaultProgress.coding.toJs), ("timed", defaultProgress.timed.toJs)] := rfl
  refine ⟨rfl, by rw [h]; rfl, ?_⟩
  rw [h]
  intro hEq
  simp [Progress.toJs, Tally.toJs] at hEq

/-- C6, amended: when the storage record is absent, empty or not parseable as JSON,
`loadProgress` returns the all-zero default ledger (it has a result for every content of the
record); when the record parses to a value without own properties it returns the default
ledger as well, and in general it returns the default ledger overwritten with the own
properties of the parsed value, whatever their shape. -/
theorem loadProgress_default_when_unreadable (parse : String → Option JsVal)
    (stored : Option String)
    (h : stored = none ∨ stored = some "" ∨ ∃ s, stored = some s ∧ parse s = none) :
    loadProgress parse stored = defaultProgress.toJs ∧
    (∀ (s : String) (v : JsVal), s ≠ "" → parse s = some v →
      loadProgress parse (some s) = .obj (objectAssign [] [defaultProgress.toJs, v]) ∧
      (ownProps v = [] → loadProgress parse (some s) = defaultProgress.toJs)) := by
  refine ⟨?_, ?_⟩
  · rcases h with h | h | ⟨s, h, hp⟩
    · subst h; rfl
    · subst h; rfl
    · subst h
      by_cases hs : s = ""
      · subst hs; rfl
      · simp only [loadProgress, hp, ne_eq, hs, not_false_eq_true, if_true]
        rfl
  · intro s v hne hp
    refine ⟨loadProgress_of_parse parse s v hne hp, ?_⟩
    intro hv
    rw [loadProgress_of_parse parse s v hne hp]
    simp only [objectAssign, List.foldl_cons, List.foldl_nil, hv]
    rfl

theorem loadProgress_default_when_unreadable_witness :
    ((some "not json" : Option String) = none ∨ some "not json" = some "" ∨
      ∃ s, some "not json" = some s ∧ compactParse s = none) ∧
    loadProgress compactParse (some "not json") = defaultProgress.toJs :=
  ⟨Or.inr (Or.inr ⟨"not json", rfl, rfl⟩),
   (loadProgress_default_when_unreadable compactParse (some "not json")
      (Or.inr (Or.inr ⟨"not json", rfl, rfl⟩))).1⟩

/-! ### Sessions: flashcards -/

theorem App.clearTimer_of_pending_nil (a : App) (id : Option Nat) (h : a.pending = []) :
    a.clearTimer id = a := by
  cases id with
  | none => rfl
  | some i =>
    cases a
    simp only at h
    subst h
    rfl

theorem roundFlashcards_eq (host : Host) (s : Flashcards) (a : String) (item : DefinitionItem)
    (hp : s.app.pending = []) (hs : s.screen = .card item) :
    roundFlashcards host s a = some (renderCard host
      { s with
        app := { s.app with nextTimer := s.app.nextTimer + 1 }
        index := s.index + 1
        totalThisSession := s.totalThisSession + 1
        correctThisSession :=
          if evaluateAnswer host.toLowerCase a item then s.correctThisSession + 1
          else s.correctThisSession
        timeoutId := some s.app.nextTimer }) := by
  simp [roundFlashcards, stepFlashcards, hs, App.setTimer, hp]

theorem renderCard_after (host : Host) (s : Flashcards) (hp : s.app.pending = [])
    (ht : s.totalThisSession = s.index) :
    FlashcardsAfter host s.items s.app.progress s.app.storage s.index (renderCard host s) := by
  unfold FlashcardsAfter renderCard
  rw [App.clearTimer_of_pending_nil _ _ hp]
  cases h : s.items[s.index]? <;> simp [h, hp, ht]

theorem startFlashcards_after (host : Host) (progress : Progress) (storage : Option String)
    (nextTimer : Nat) (catalog : List DefinitionItem) (rand : Draws) :
    FlashcardsAfter host (shuffle catalog rand) progress storage 0
      (startFlashcards host (App.atMenu progress storage nextTimer) catalog rand) :=
  renderCard_after host _ rfl rfl

theorem roundFlashcards_after (host : Host) (items : List DefinitionItem)
    (progress : Progress) (storage : Option String) (k : Nat) (s : Flashcards) (a : String)
    (hs : FlashcardsAfter host items progress storage k s) (hk : k < items.length) :
    ∃ s1, roundFlashcards host s a = some s1 ∧
      FlashcardsAfter host items progress storage (k + 1) s1 := by
  obtain ⟨hi, hx, ht, hp, hm⟩ := hs
  rw [List.getElem?_eq_getElem hk] at hm
  obtain ⟨hscr, hpr, hst⟩ := hm
  refine ⟨_, roundFlashcards_eq host s a _ hp hscr, ?_⟩
  have h := renderCard_after host
    { s with
      app := { s.app with nextTimer := s.app.nextTimer + 1 }
      index := s.index + 1
      totalThisSession := s.totalThisSession + 1
      correctThisSession :=
        if evaluateAnswer host.toLowerCase a items[k] then s.correctThisSession + 1
        else s.correctThisSession
      timeoutId := some s.app.nextTimer } hp (by simp [ht, hx])
  simpa [hi, hx, hpr, hst] using h

theorem roundsFlashcards_after (host : Host) (items : List DefinitionItem)
    (progress : Progress) (storage : Option String) :
    ∀ (answers : List String) (k : Nat) (s : Flashcards),
      FlashcardsAfter host items progress storage k s → k + answers.length ≤ items.length →
      ∃ s1, roundsFlashcards host s answers = some s1 ∧
        FlashcardsAfter host items progress storage (k + answers.length) s1 := by
  intro answers
  induction answers with
  | nil => intro k s hs _; exact ⟨s, rfl, hs⟩
  | cons a as ih =>
    intro k s hs hk
    simp only [List.length_cons] at hk
    obtain ⟨s1, h1, hs1⟩ := roundFlashcards_after host items progress storage k s a hs (by omega)
    obtain ⟨s2, h2, hs2⟩ := ih (k + 1) s1 hs1 (by omega)
    refine ⟨s2, ?_, ?_⟩
    · simp [roundsFlashcards, h1, h2]
    · have : k + (a :: as).length = k + 1 + as.length := by simp; omega
      rw [this]; exact hs2

/-! ### Sessions: multiple choice -/

theorem roundMultipleChoice_eq (host : Host) (s : MultipleChoice) (i : Nat) (q : McQuestion)
    (hp : s.app.pending = []) (hs : s.screen = .question q) (hi : i < q.options.length)
    (ha : q.answer < q.options.length) :
    roundMultipleChoice host s i = some (renderQuestion host
      { s with
        app := { s.app with nextTimer := s.app.nextTimer + 1 }
        index := s.index + 1
        correctSession := if i = q.answer then s.correctSession + 1 else s.correctSession
        timeoutId := some s.app.nextTimer }) := by
  by_cases h : i = q.answer <;>
    simp [roundMultipleChoice, stepMultipleChoice, hs, App.setTimer, hp, hi, ha, h]

theorem renderQuestion_after (host : Host) (s : MultipleChoice) (hp : s.app.pending = [])
    (ht : s.totalSession = s.questions.length) :
    MultipleChoiceAfter host s.questions s.app.progress s.app.storage s.index
      (renderQuestion host s) := by
  unfold MultipleChoiceAfter renderQuestion
  rw [App.clearTimer_of_pending_nil _ _ hp]
  cases h : s.questions[s.index]? <;> simp [h, hp, ht]

theorem startMultipleChoice_after (host : Host) (progress : Progress)
    (storage : Option String) (nextTimer : Nat) (catalog : List McQuestion) (rand : Draws) :
    MultipleChoiceAfter host (shuffle catalog rand) progress storage 0
      (startMultipleChoice host (App.atMenu progress storage nextTimer) catalog rand) :=
  renderQuestion_after host _ rfl rfl

theorem roundMultipleChoice_after (host : Host) (questions : List McQuestion)
    (progress : Progress) (storage : Option String) (k : Nat) (s : MultipleChoice) (i : Nat)
    (hs : MultipleChoiceAfter host questions progress storage k s)
    (hq : ∀ q ∈ questions, q.options.length = 4 ∧ q.answer < 4) (hi : i < 4)
    (hk : k < questions.length) :
    ∃ s1, roundMultipleChoice host s i = some s1 ∧
      MultipleChoiceAfter host questions progress storage (k + 1) s1 := by
  obtain ⟨hqs, hx, ht, hp, hm⟩ := hs
  rw [List.getElem?_eq_getElem hk] at hm
  obtain ⟨hscr, hpr, hst⟩ := hm
  obtain ⟨h4, ha⟩ := hq _ (List.getElem_mem hk)
  refine ⟨_, roundMultipleChoice_eq host s i _ hp hscr (by omega) (by omega), ?_⟩
  have h := renderQuestion_after host
    { s with
      app := { s.app with nextTimer := s.app.nextTimer + 1 }
      index := s.index + 1
      correctSession :=
        if i = questions[k].answer then s.correctSession + 1 else s.correctSession
      timeoutId := some s.app.nextTimer } hp (by simp [ht, hqs])
  simpa [hqs, hx, hpr, hst] using h

theorem roundsMultipleChoice_after (host : Host) (questions : List McQuestion)
    (progress : Progress) (storage : Option String)
    (hq : ∀ q ∈ questions, q.options.length = 4 ∧ q.answer < 4) :
    ∀ (clicks : List Nat) (k : Nat) (s : MultipleChoice),
      MultipleChoiceAfter host questions progress storage k s →
      (∀ i ∈ clicks, i < 4) → k + clicks.length ≤ questions.length →
      ∃ s1, roundsMultipleChoice host s clicks = some s1 ∧
        MultipleChoiceAfter host questions progress storage (k + clicks.length) s1 := by
  intro clicks
  induction clicks with
  | nil => intro k s hs _ _; exact ⟨s, rfl, hs⟩
  | cons i is ih =>
    intro k s hs hc hk
    simp only [List.length_cons] at hk
    obtain ⟨s1, h1, hs1⟩ := roundMultipleChoice_after host questions progress storage k s i hs
      hq (hc i (List.mem_cons_self i is)) (by omega)
    obtain ⟨s2, h2, hs2⟩ := ih (k + 1) s1 hs1
      (fun j hj => hc j (List.mem_cons_of_mem i hj)) (by omega)
    refine ⟨s2, ?_, ?_⟩
    · simp [roundsMultipleChoice, h1, h2]
    · have : k + (i :: is).length = k + 1 + is.length := by simp; omega
      rw [this]; exact hs2

/-! ### Sessions: timed challenge -/

theorem indexOf_recorded (shuffled : List String) (x : String) (h : x ∈ shuffled) :
    ∃ c : Nat, indexOf shuffled x = (c : Int) ∧ c < shuffled.length ∧
      shuffled[c]? = some x := by
  have hlt : shuffled.indexOf x < shuffled.length := List.indexOf_lt_length.mpr h
  refine ⟨shuffled.indexOf x, ?_, hlt, ?_⟩
  · simp [indexOf, hlt]
  · rw [List.getElem?_eq_getElem hlt, List.getElem_indexOf hlt]

theorem validOption_of_recorded (item : DefinitionItem) (shuffled : List String)
    (h : RecordedCorrect item shuffled) : validOption item.correctIdx shuffled.length = true := by
  obtain ⟨c, hc, hlt, _⟩ := h
  simp [validOption, hc, hlt]

theorem nextQuestion_question (host : Host) (ch : Chance) (s : TimedChallenge) (r : Nat)
    (item : DefinitionItem) (hp : s.app.pending = []) (hr : s.items[s.index]? = some r)
    (hd : s.definitions[r]? = some item) :
    ∃ (shuffled : List String) (c : Nat),
      c < shuffled.length ∧ shuffled[c]? = some item.definition ∧
      nextQuestion host ch s = some
        { s with
          app := { s.app with pending := [(s.app.nextTimer, TimerKind.startTimer)]
                              nextTimer := s.app.nextTimer + 1 }
          definitions := s.definitions.set r { item with correctIdx := some (c : Int) }
          screen := .question shuffled } := by
  have hmem : item.definition ∈ shuffle (item.definition ::
      ((ch.order (s.definitions.filter (fun d => d.term != item.term))).take 3).map
        (fun d => d.definition)) ch.rand :=
    (shuffle_perm_aux _ _).mem_iff.mpr (List.mem_cons_self _ _)
  obtain ⟨c, hc, hlt, hget⟩ := indexOf_recorded _ _ hmem
  refine ⟨_, c, hlt, hget, ?_⟩
  unfold nextQuestion
  rw [App.clearTimer_of_pending_nil _ _ hp, App.clearTimer_of_pending_nil _ _ hp]
  simp only [hr, hd, hc, App.setTimer, hp, List.nil_append]

theorem nextQuestion_summary (host : Host) (ch : Chance) (s : TimedChallenge)
    (hp : s.app.pending = []) (hi : s.items[s.index]? = none) :
    nextQuestion host ch s = some
      { s with
        app := { s.app with
          progress := foldTimed s.app.progress s.correctSession s.totalSession
          storage := saveProgress host.stringify
            (foldTimed s.app.progress s.correctSession s.totalSession).toJs }
        screen := .summary } := by
  unfold nextQuestion
  rw [App.clearTimer_of_pending_nil _ _ hp, App.clearTimer_of_pending_nil _ _ hp]
  simp only [hi]

theorem nextQuestion_after (host : Host) (ch : Chance) (s : TimedChallenge)
    (hp : s.app.pending = []) (hr : ∀ r ∈ s.items, r < s.definitions.length)
    (ht : s.totalSession = s.items.length) :
    ∃ s1, nextQuestion host ch s = some s1 ∧
      s1.correctSession = s.correctSession ∧
      TimedAfter host s.items s.definitions.length s.app.progress s.app.storage s.index s1 := by
  cases hi : s.items[s.index]? with
  | none =>
    refine ⟨_, nextQuestion_summary host ch s hp hi, rfl, ?_⟩
    simp [TimedAfter, hi, hp, ht]
  | some r =>
    have hlt : r < s.definitions.length := hr r (List.getElem?_mem hi)
    have hd : s.definitions[r]? = some s.definitions[r] := List.getElem?_eq_getElem hlt
    obtain ⟨shuffled, c, hc, hget, hq⟩ := nextQuestion_question host ch s r _ hp hi hd
    refine ⟨_, hq, rfl, ?_⟩
    refine ⟨rfl, rfl, ht, by simp, ?_⟩
    rw [hi]
    dsimp only
    refine ⟨shuffled, { s.definitions[r] with correctIdx := some (c : Int) }, s.app.nextTimer,
      rfl, ?_, ⟨c, rfl, hc, hget⟩, rfl, rfl, rfl⟩
    simp [List.getElem?_set, hlt]

theorem fire_startTimer_eq (host : Host) (ch : Chance) (s : TimedChallenge) (t : Nat)
    (hp : s.app.pending = [(t, TimerKind.startTimer)]) :
    stepTimedChallenge host s (.fire t ch) = some
      { s with
        app := { s.app with pending := [(s.app.nextTimer, TimerKind.tick)]
                            nextTimer := s.app.nextTimer + 1 }
        timeRemaining := 10
        timerInterval := some s.app.nextTimer } := by
  simp [stepTimedChallenge, hp, startTimer, App.setTimer]

theorem current_of_shown (items : List Nat) (n : Nat)
    (progress : Progress) (storage : Option String) (k r : Nat) (item : DefinitionItem)
    (shuffled : List String) (s : TimedChallenge)
    (hs : TimedShown items n progress storage k r item shuffled s) :
    s.current = some item := by
  obtain ⟨h1, h2, h3, h4, h5, h6, h7, h8, h9, h10⟩ := hs
  simp [TimedChallenge.current, h1, h2, h5, h7]

theorem revealAnswer_eq (items : List Nat) (n : Nat)
    (progress : Progress) (storage : Option String) (k r : Nat) (item : DefinitionItem)
    (shuffled : List String) (s : TimedChallenge) (selected : Option Nat)
    (hs : TimedShown items n progress storage k r item shuffled s)
    (hsel : ∀ i, selected = some i → i < shuffled.length) :
    revealAnswer s selected = some
      { s with
        app := { s.app.clearTimer s.timerInterval with
          pending := (s.app.clearTimer s.timerInterval).pending ++
            [(s.app.nextTimer, TimerKind.advance)]
          nextTimer := s.app.nextTimer + 1 }
        correctSession :=
          if selected.map Int.ofNat = item.correctIdx then s.correctSession + 1
          else s.correctSession
        timeoutId := some s.app.nextTimer } := by
  have hcur := current_of_shown items n progress storage k r item shuffled s hs
  obtain ⟨h1, h2, h3, h4, h5, h6, h7, h8, h9, h10⟩ := hs
  have hv := validOption_of_recorded item shuffled h8
  have hnt : (s.app.clearTimer s.timerInterval).nextTimer = s.app.nextTimer := by
    cases s.timerInterval <;> rfl
  cases selected with
  | none =>
    have hne : ¬ (none = item.correctIdx) := by
      obtain ⟨c, hc, _⟩ := h8
      simp [hc]
    simp [revealAnswer, hcur, h6, TimedScreen.optionCount, hv, App.setTimer, hnt, hne]
  | some i =>
    have hi := hsel i rfl
    by_cases hic : item.correctIdx = some (i : Int)
    · simp [revealAnswer, hcur, h6, TimedScreen.optionCount, hv, App.setTimer, hnt, hic, hi]
    · have hne : ¬ (some (i : Int) = item.correctIdx) := fun h => hic h.symm
      simp [revealAnswer, hcur, h6, TimedScreen.optionCount, hv, App.setTimer, hnt, hic, hi,
        hne]

theorem revealAnswer_answered (items : List Nat) (n : Nat)
    (progress : Progress) (storage : Option String) (k r : Nat) (item : DefinitionItem)
    (shuffled : List String) (s : TimedChallenge) (selected : Option Nat)
    (hs : TimedShown items n progress storage k r item shuffled s)
    (hp : (s.app.clearTimer s.timerInterval).pending = [])
    (hsel : ∀ i, selected = some i → i < shuffled.length) :
    ∃ s2 t1, revealAnswer s selected = some s2 ∧
      TimedShown items n progress storage k r item shuffled s2 ∧
      s2.app.pending = [(t1, TimerKind.advance)] ∧ s2.timeoutId = some t1 ∧
      s2.correctSession =
        (if selected.map Int.ofNat = item.correctIdx then s.correctSession + 1
         else s.correctSession) := by
  refine ⟨_, s.app.nextTimer,
    revealAnswer_eq items n progress storage k r item shuffled s selected hs hsel, ?_, ?_, rfl,
    rfl⟩
  · obtain ⟨h1, h2, h3, h4, h5, h6, h7, h8, h9, h10⟩ := hs
    refine ⟨h1, h2, h3, h4, h5, h6, h7, h8, ?_, ?_⟩
    · cases s.timerInterval <;> exact h9
    · cases s.timerInterval <;> exact h10
  · simp [hp]

theorem ticks_answered (host : Host) (ch : Chance) (items : List Nat) (n : Nat)
    (progress : Progress) (storage : Option String) (k r : Nat) (item : DefinitionItem)
    (shuffled : List String) (t : Nat) :
    ∀ (j : Nat) (s : TimedChallenge),
      TimedShown items n progress storage k r item shuffled s →
      s.app.pending = [(t, TimerKind.tick)] → s.timerInterval = some t →
      s.timeRemaining = ((j + 1 : Nat) : Int) →
      ∃ s2 t1,
        repeatTimed host (fun u => u.timerInterval.map (fun id => TimedEvent.fire id ch))
          (j + 1) s = some s2 ∧
        TimedShown items n progress storage k r item shuffled s2 ∧
        s2.app.pending = [(t1, TimerKind.advance)] ∧ s2.timeoutId = some t1 ∧
        s2.correctSession = s.correctSession := by
  intro j
  induction j with
  | zero =>
    intro s hs hp hti htr
    have hs0 : TimedShown items n progress storage k r item shuffled
        { s with timeRemaining := s.timeRemaining - 1
                 app := s.app.clearTimer s.timerInterval } := by
      obtain ⟨h1, h2, h3, h4, h5, h6, h7, h8, h9, h10⟩ := hs
      refine ⟨h1, h2, h3, h4, h5, h6, h7, h8, ?_, ?_⟩
      · cases s.timerInterval <;> exact h9
      · cases s.timerInterval <;> exact h10
    obtain ⟨s2, t1, h2, hsh, hpe, hto, hcs⟩ :=
      revealAnswer_answered items n progress storage k r item shuffled _ none hs0
        (by simp [App.clearTimer, hti, hp]) (by simp)
    have hne : ¬ (none = item.correctIdx) := by
      obtain ⟨c, hc, _⟩ := hs.2.2.2.2.2.2.2.1
      simp [hc]
    refine ⟨s2, t1, ?_, hsh, hpe, hto, ?_⟩
    · simp only [repeatTimed, hti, Option.map_some', stepTimedChallenge, hp,
        List.lookup_cons_self, tick, htr]
      simp only [Nat.zero_add, Nat.cast_one, sub_self, le_refl, if_true, Option.bind_eq_bind]
      have h2b := h2
      simp only [htr, hti, Nat.zero_add, Nat.cast_one, sub_self] at h2b
      rw [h2b]
      rfl
    · simpa [hne] using hcs
  | succ j ih =>
    intro s hs hp hti htr
    have hs1 : TimedShown items n progress storage k r item shuffled
        { s with timeRemaining := s.timeRemaining - 1 } := hs
    obtain ⟨s2, t1, h2, hsh, hpe, hto, hcs⟩ :=
      ih { s with timeRemaining := s.timeRemaining - 1 } hs1 hp hti (by
        simp only [htr]; push_cast; ring)
    refine ⟨s2, t1, ?_, hsh, hpe, hto, hcs⟩
    have hpos : ¬ ((((j + 1 + 1 : Nat) : Int)) - 1 ≤ 0) := by push_cast; omega
    rw [repeatTimed]
    simp only [hti, Option.map_some', stepTimedChallenge, hp, List.lookup_cons_self, tick, htr,
      hpos, if_false, Option.some_bind, Option.bind_eq_bind]
    simp only [htr, hti] at h2
    exact h2

theorem answer_phase (host : Host) (ch : Chance) (items : List Nat) (n : Nat)
    (progress : Progress) (storage : Option String) (k r : Nat) (item : DefinitionItem)
    (shuffled : List String) (t : Nat) (s : TimedChallenge)
    (answer : List String → Option Nat)
    (hs : TimedShown items n progress storage k r item shuffled s)
    (hp : s.app.pending = [(t, TimerKind.tick)]) (hti : s.timerInterval = some t)
    (htr : s.timeRemaining = 10)
    (ha : ∀ opts i, answer opts = some i → i < opts.length) :
    ∃ s2 t1,
      (match s.screen with
        | .question shuffled =>
          match answer shuffled with
          | some i => stepTimedChallenge host s (.click i)
          | none =>
            repeatTimed host (fun u => u.timerInterval.map (fun id => TimedEvent.fire id ch))
              10 s
        | _ => none) = some s2 ∧
      TimedShown items n progress storage k r item shuffled s2 ∧
      s2.app.pending = [(t1, TimerKind.advance)] ∧ s2.timeoutId = some t1 := by
  have hscr : s.screen = .question shuffled := hs.2.2.2.2.2.1
  rw [hscr]
  dsimp only
  cases hans : answer shuffled with
  | none =>
    obtain ⟨s2, t1, h2, hsh, hpe, hto, _⟩ :=
      ticks_answered host ch items n progress storage k r item shuffled t 9 s hs hp hti
        (by rw [htr]; rfl)
    exact ⟨s2, t1, h2, hsh, hpe, hto⟩
  | some i =>
    have hi : i < shuffled.length := ha shuffled i hans
    obtain ⟨s2, t1, h2, hsh, hpe, hto, _⟩ :=
      revealAnswer_answered items n progress storage k r item shuffled s (some i) hs
        (by simp [App.clearTimer, hti, hp]) (by intro j hj; cases hj; exact hi)
    refine ⟨s2, t1, ?_, hsh, hpe, hto⟩
    simp [stepTimedChallenge, hscr, hi, h2]

theorem advance_phase (host : Host) (ch : Chance) (items : List Nat) (n : Nat)
    (progress : Progress) (storage : Option String) (k r : Nat) (item : DefinitionItem)
    (shuffled : List String) (t1 : Nat) (s : TimedChallenge)
    (hs : TimedShown items n progress storage k r item shuffled s)
    (hp : s.app.pending = [(t1, TimerKind.advance)]) (hto : s.timeoutId = some t1)
    (hr : ∀ r ∈ items, r < n) :
    ∃ s3,
      (match s.timeoutId with
        | some id => stepTimedChallenge host s (.fire id ch)
        | none => none) = some s3 ∧
      s3.correctSession = s.correctSession ∧
      TimedAfter host items n progress storage (k + 1) s3 := by
  obtain ⟨h1, h2, h3, h4, h5, h6, h7, h8, h9, h10⟩ := hs
  obtain ⟨s3, hq, hc, hafter⟩ := nextQuestion_after host ch
    { s with app := { s.app with pending := [] }, index := s.index + 1 } rfl
    (by simpa [h1, h4] using hr) (by simpa [h1] using h3)
  refine ⟨s3, ?_, hc, ?_⟩
  · rw [hto]
    simp only [stepTimedChallenge, hp, List.lookup_cons_self]
    have hfil : List.filter (fun p : Nat × TimerKind => p.1 != t1) [(t1, TimerKind.advance)]
        = [] := by simp
    rw [hfil]
    exact hq
  · simpa [h1, h2, h4, h9, h10] using hafter

theorem roundTimedChallenge_after (host : Host) (ch : Chance) (items : List Nat) (n : Nat)
    (progress : Progress) (storage : Option String) (k : Nat) (s : TimedChallenge)
    (answer : List String → Option Nat)
    (hs : TimedAfter host items n progress storage k s) (hk : k < items.length)
    (hr : ∀ r ∈ items, r < n)
    (ha : ∀ opts i, answer opts = some i → i < opts.length) :
    ∃ s1, roundTimedChallenge host s answer ch = some s1 ∧
      TimedAfter host items n progress storage (k + 1) s1 := by
  obtain ⟨h1, h2, h3, h4, hm⟩ := hs
  rw [List.getElem?_eq_getElem hk] at hm
  obtain ⟨shuffled, item, t, hscr, hd, hrec, hp, hpr, hst⟩ := hm
  have hshown : TimedShown items n progress storage k items[k] item shuffled s :=
    ⟨h1, h2, h3, h4, List.getElem?_eq_getElem hk, hscr, hd, hrec, hpr, hst⟩
  have hcs : s.countdownStart = some t := by simp [TimedChallenge.countdownStart, hp]
  have hf := fire_startTimer_eq host ch s t hp
  obtain ⟨s2, t1, hans, hsh2, hp2, hto2⟩ :=
    answer_phase host ch items n progress storage k items[k] item shuffled s.app.nextTimer
      { s with
        app := { s.app with pending := [(s.app.nextTimer, TimerKind.tick)]
                            nextTimer := s.app.nextTimer + 1 }
        timeRemaining := 10
        timerInterval := some s.app.nextTimer } answer hshown rfl rfl rfl ha
  obtain ⟨s3, hadv, _, hafter⟩ :=
    advance_phase host ch items n progress storage k items[k] item shuffled t1 s2 hsh2 hp2
      hto2 hr
  refine ⟨s3, ?_, hafter⟩
  unfold roundTimedChallenge
  rw [hcs]
  dsimp only
  rw [hf, Option.some_bind, hans, Option.some_bind]
  exact hadv

theorem roundsTimedChallenge_after (host : Host) (items : List Nat) (n : Nat)
    (progress : Progress) (storage : Option String) (hr : ∀ r ∈ items, r < n) :
    ∀ (answers : List ((List String → Option Nat) × Chance)) (k : Nat) (s : TimedChallenge),
      TimedAfter host items n progress storage k s →
      (∀ a ∈ answers, ∀ opts i, a.1 opts = some i → i < opts.length) →
      k + answers.length ≤ items.length →
      ∃ s1, roundsTimedChallenge host s answers = some s1 ∧
        TimedAfter host items n progress storage (k + answers.length) s1 := by
  intro answers
  induction answers with
  | nil => intro k s hs _ _; exact ⟨s, rfl, hs⟩
  | cons a as ih =>
    intro k s hs ha hk
    simp only [List.length_cons] at hk
    obtain ⟨s1, h1, hs1⟩ := roundTimedChallenge_after host a.2 items n progress storage k s a.1
      hs (by omega) hr (ha a (List.mem_cons_self a as))
    obtain ⟨s2, h2, hs2⟩ := ih (k + 1) s1 hs1
      (fun b hb => ha b (List.mem_cons_of_mem a hb)) (by omega)
    refine ⟨s2, ?_, ?_⟩
    · simp [roundsTimedChallenge, h1, h2]
    · have : k + (a :: as).length = k + 1 + as.length := by simp; omega
      rw [this]; exact hs2

theorem workingSet_refs (n : Nat) (rand : Draws) :
    ∀ r ∈ (shuffle (List.range n) rand).take (min 8 (shuffle (List.range n) rand).length),
      r < n := by
  intro r hr
  have h1 : r ∈ shuffle (List.range n) rand := List.mem_of_mem_take hr
  have h2 : r ∈ List.range n := (shuffle_perm_aux _ rand).mem_iff.mp h1
  exact List.mem_range.mp h2

theorem workingSet_length (n : Nat) (rand : Draws) :
    ((shuffle (List.range n) rand).take (min 8 (shuffle (List.range n) rand).length)).length
      = min 8 n := by
  simp [shuffle_length]

theorem startTimedChallenge_after (host : Host) (progress : Progress)
    (storage : Option String) (nextTimer : Nat) (catalog : List DefinitionItem) (rand : Draws)
    (ch : Chance) :
    ∃ s0, startTimedChallenge host (App.atMenu progress storage nextTimer) catalog rand ch
        = some s0 ∧
      s0.correctSession = 0 ∧
      TimedAfter host
        ((shuffle (List.range catalog.length) rand).take
          (min 8 (shuffle (List.range catalog.length) rand).length))
        catalog.length progress storage 0 s0 := by
  obtain ⟨s0, h0, hc, hafter⟩ := nextQuestion_after host ch
    (timedInitial (App.atMenu progress storage nextTimer) catalog rand) rfl
    (workingSet_refs catalog.length rand) rfl
  exact ⟨s0, h0, hc, hafter⟩

/-! ### Abandoned sessions -/

/-- C3, counterexample: in a flashcard session on `definitions` started from the all-zero
ledger, the user answers the first card correctly (session counts 1 and 1) and presses "Back
to menu"; the menu is shown and the flashcards entry of the ledger is still {0, 0}, not
{0 + 1, 0 + 1}, and nothing has been written to the storage record. -/
theorem abandoned_session_not_folded :
    abandonedFlashcards.map
      (fun s => (s.screen, s.correctThisSession, s.totalThisSession,
        s.app.progress.flashcards, s.app.storage)) =
      some (.menu, 1, 1, ⟨0, 0⟩, none) ∧
    (⟨0, 0⟩ : Tally) ≠ ⟨0 + 1, 0 + 1⟩ := by
  decide

theorem App.clearTimer_progress (a : App) (id : Option Nat) :
    (a.clearTimer id).progress = a.progress ∧ (a.clearTimer id).storage = a.storage := by
  cases id <;> exact ⟨rfl, rfl⟩

theorem stepFlashcards_back_card (host : Host) (s : Flashcards) (item : DefinitionItem)
    (h : s.screen = .card item) :
    stepFlashcards host s .back =
      some { s with app := (s.app.clearTimer s.timeoutId).renderMenu, screen := .menu } := by
  simp [stepFlashcards, h]

theorem stepMultipleChoice_back_question (host : Host) (s : MultipleChoice) (q : McQuestion)
    (h : s.screen = .question q) :
    stepMultipleChoice host s .back =
      some { s with app := (s.app.clearTimer s.timeoutId).renderMenu, screen := .menu } := by
  simp [stepMultipleChoice, h]

theorem stepTimedChallenge_back_question (host : Host) (s : TimedChallenge)
    (shuffled : List String) (h : s.screen = .question shuffled) :
    stepTimedChallenge host s .back =
      some { s with
        app := ((s.app.clearTimer s.timeoutId).clearTimer s.timerInterval).renderMenu
        screen := .menu } := by
  simp [stepTimedChallenge, h]

theorem renderCard_ledger (host : Host) (s : Flashcards) :
    (renderCard host s).items = s.items ∧ (renderCard host s).index = s.index ∧
    ((renderCard host s).index < (renderCard host s).items.length →
      (renderCard host s).app.progress = s.app.progress ∧
      (renderCard host s).app.storage = s.app.storage) := by
  unfold renderCard
  cases h : s.items[s.index]? with
  | none =>
    refine ⟨rfl, rfl, fun hlt => ?_⟩
    have := List.getElem?_eq_none_iff.mp h
    simp only at hlt
    omega
  | some item => exact ⟨rfl, rfl, fun _ => App.clearTimer_progress _ _⟩

theorem stepFlashcards_ledger (host : Host) (s s1 : Flashcards) (e : FlashEvent)
    (h : stepFlashcards host s e = some s1) :
    s1.items = s.items ∧ s.index ≤ s1.index ∧
    (s1.index < s1.items.length →
      s1.app.progress = s.app.progress ∧ s1.app.storage = s.app.storage) := by
  cases e with
  | submit a =>
    simp only [stepFlashcards] at h
    split at h
    · cases h; exact ⟨rfl, le_refl _, fun _ => ⟨rfl, rfl⟩⟩
    · cases h
  | back =>
    simp only [stepFlashcards] at h
    split at h
    · cases h
      exact ⟨rfl, le_refl _, fun _ => App.clearTimer_progress _ _⟩
    · cases h; exact ⟨rfl, le_refl _, fun _ => ⟨rfl, rfl⟩⟩
    · cases h
  | fire id =>
    simp only [stepFlashcards] at h
    split at h
    · cases h
      obtain ⟨h1, h2, h3⟩ := renderCard_ledger host
        { s with
          app := { s.app with pending := s.app.pending.filter (fun p => p.1 != id) }
          index := s.index + 1 }
      refine ⟨h1, ?_, h3⟩
      rw [h2]
      exact Nat.le_succ _
    · cases h

theorem runFlashcards_ledger (host : Host) :
    ∀ (events : List FlashEvent) (s s1 : Flashcards),
      runFlashcards host s events = some s1 →
      s1.items = s.items ∧ s.index ≤ s1.index ∧
      (s1.index < s1.items.length →
        s1.app.progress = s.app.progress ∧ s1.app.storage = s.app.storage) := by
  intro events
  induction events with
  | nil =>
    intro s s1 h
    cases h
    exact ⟨rfl, le_refl _, fun _ => ⟨rfl, rfl⟩⟩
  | cons e es ih =>
    intro s s1 h
    simp only [runFlashcards] at h
    cases hstep : stepFlashcards host s e with
    | none => simp [hstep] at h
    | some s2 =>
      simp only [hstep, Option.some_bind] at h
      obtain ⟨a1, a2, a3⟩ := stepFlashcards_ledger host s s2 e hstep
      obtain ⟨b1, b2, b3⟩ := ih s2 s1 h
      refine ⟨b1.trans a1, le_trans a2 b2, fun hlt => ?_⟩
      obtain ⟨c1, c2⟩ := b3 hlt
      obtain ⟨d1, d2⟩ := a3 (by rw [← b1]; omega)
      exact ⟨c1.trans d1, c2.trans d2⟩

theorem renderQuestion_ledger (host : Host) (s : MultipleChoice) :
    (renderQuestion host s).questions = s.questions ∧
    (renderQuestion host s).index = s.index ∧
    ((renderQuestion host s).index < (renderQuestion host s).questions.length →
      (renderQuestion host s).app.progress = s.app.progress ∧
      (renderQuestion host s).app.storage = s.app.storage) := by
  unfold renderQuestion
  cases h : s.questions[s.index]? with
  | none =>
    refine ⟨rfl, rfl, fun hlt => ?_⟩
    have := List.getElem?_eq_none_iff.mp h
    simp only at hlt
    omega
  | some q => exact ⟨rfl, rfl, fun _ => App.clearTimer_progress _ _⟩

theorem stepMultipleChoice_ledger (host : Host) (s s1 : MultipleChoice) (e : QuizEvent)
    (h : stepMultipleChoice host s e = some s1) :
    s1.questions = s.questions ∧ s.index ≤ s1.index ∧
    (s1.index < s1.questions.length →
      s1.app.progress = s.app.progress ∧ s1.app.storage = s.app.storage) := by
  cases e with
  | click i =>
    simp only [stepMultipleChoice] at h
    split at h
    · split at h
      · split at h
        · cases h; exact ⟨rfl, le_refl _, fun _ => ⟨rfl, rfl⟩⟩
        · split at h
          · cases h; exact ⟨rfl, le_refl _, fun _ => ⟨rfl, rfl⟩⟩
          · cases h
      · cases h
    · cases h
  | back =>
    simp only [stepMultipleChoice] at h
    split at h
    · cases h
      exact ⟨rfl, le_refl _, fun _ => App.clearTimer_progress _ _⟩
    · cases h; exact ⟨rfl, le_refl _, fun _ => ⟨rfl, rfl⟩⟩
    · cases h
  | fire id =>
    simp only [stepMultipleChoice] at h
    split at h
    · cases h
      obtain ⟨h1, h2, h3⟩ := renderQuestion_ledger host
        { s with
          app := { s.app with pending := s.app.pending.filter (fun p => p.1 != id) }
          index := s.index + 1 }
      refine ⟨h1, ?_, h3⟩
      rw [h2]
      exact Nat.le_succ _
    · cases h

theorem runMultipleChoice_ledger (host : Host) :
    ∀ (events : List QuizEvent) (s s1 : MultipleChoice),
      runMultipleChoice host s events = some s1 →
      s1.questions = s.questions ∧ s.index ≤ s1.index ∧
      (s1.index < s1.questions.length →
        s1.app.progress = s.app.progress ∧ s1.app.storage = s.app.storage) := by
  intro events
  induction events with
  | nil =>
    intro s s1 h
    cases h
    exact ⟨rfl, le_refl _, fun _ => ⟨rfl, rfl⟩⟩
  | cons e es ih =>
    intro s s1 h
    simp only [runMultipleChoice] at h
    cases hstep : stepMultipleChoice host s e with
    | none => simp [hstep] at h
    | some s2 =>
      simp only [hstep, Option.some_bind] at h
      obtain ⟨a1, a2, a3⟩ := stepMultipleChoice_ledger host s s2 e hstep
      obtain ⟨b1, b2, b3⟩ := ih s2 s1 h
      refine ⟨b1.trans a1, le_trans a2 b2, fun hlt => ?_⟩
      obtain ⟨c1, c2⟩ := b3 hlt
      obtain ⟨d1, d2⟩ := a3 (by rw [← b1]; omega)
      exact ⟨c1.trans d1, c2.trans d2⟩

theorem nextQuestion_ledger (host : Host) (ch : Chance) (s s1 : TimedChallenge)
    (h : nextQuestion host ch s = some s1) :
    s1.items = s.items ∧ s1.index = s.index ∧
    (s1.index < s1.items.length →
      s1.app.progress = s.app.progress ∧ s1.app.storage = s.app.storage) := by
  unfold nextQuestion at h
  cases hi : s.items[s.index]? with
  | none =>
    simp only [hi] at h
    cases h
    refine ⟨rfl, rfl, fun hlt => ?_⟩
    have := List.getElem?_eq_none_iff.mp hi
    simp only at hlt
    omega
  | some r =>
    simp only [hi] at h
    cases hd : s.definitions[r]? with
    | none => simp [hd] at h
    | some item =>
      simp only [hd] at h
      cases h
      refine ⟨rfl, rfl, fun _ => ?_⟩
      have h1 := App.clearTimer_progress s.app s.timeoutId
      have h2 := App.clearTimer_progress (s.app.clearTimer s.timeoutId) s.timerInterval
      exact ⟨h2.1.trans h1.1, h2.2.trans h1.2⟩

theorem revealAnswer_ledger (s s1 : TimedChallenge) (selected : Option Nat)
    (h : revealAnswer s selected = some s1) :
    s1.items = s.items ∧ s1.index = s.index ∧ s1.totalSession = s.totalSession ∧
    s1.app.progress = s.app.progress ∧ s1.app.storage = s.app.storage := by
  have hp := App.clearTimer_progress s.app s.timerInterval
  unfold revealAnswer at h
  cases hcur : s.current with
  | none => simp [hcur] at h
  | some question =>
    simp only [hcur] at h
    cases selected with
    | none =>
      simp only at h
      split at h
      · cases h; exact ⟨rfl, rfl, rfl, hp.1, hp.2⟩
      · cases h
    | some i =>
      simp only at h
      split at h
      · split at h
        · cases h; exact ⟨rfl, rfl, rfl, hp.1, hp.2⟩
        · cases h
      · split at h
        · cases h; exact ⟨rfl, rfl, rfl, hp.1, hp.2⟩
        · cases h

theorem stepTimedChallenge_ledger (host : Host) (s s1 : TimedChallenge) (e : TimedEvent)
    (h : stepTimedChallenge host s e = some s1) :
    s1.items = s.items ∧ s.index ≤ s1.index ∧ s1.totalSession = s.totalSession ∧
    (s1.index < s1.items.length →
      s1.app.progress = s.app.progress ∧ s1.app.storage = s.app.storage) := by
  cases e with
  | click i =>
    simp only [stepTimedChallenge] at h
    split at h
    · split at h
      · obtain ⟨h1, h2, h3, h4, h5⟩ := revealAnswer_ledger s s1 (some i) h
        exact ⟨h1, by omega, h3, fun _ => ⟨h4, h5⟩⟩
      · cases h
    · cases h
  | back =>
    simp only [stepTimedChallenge] at h
    split at h
    · cases h
      have h1 := App.clearTimer_progress s.app s.timeoutId
      have h2 := App.clearTimer_progress (s.app.clearTimer s.timeoutId) s.timerInterval
      exact ⟨rfl, le_refl _, rfl, fun _ => ⟨h2.1.trans h1.1, h2.2.trans h1.2⟩⟩
    · cases h; exact ⟨rfl, le_refl _, rfl, fun _ => ⟨rfl, rfl⟩⟩
    · cases h
  | fire id ch =>
    simp only [stepTimedChallenge] at h
    split at h
    · obtain ⟨h1, h2, h3⟩ := nextQuestion_ledger host ch _ s1 h
      refine ⟨h1, by rw [h2]; exact Nat.le_succ _, ?_, h3⟩
      unfold nextQuestion at h
      simp only at h
      split at h
      · cases h; rfl
      · split at h
        · cases h
        · cases h; rfl
    · cases h
      exact ⟨rfl, le_refl _, rfl, fun _ => ⟨rfl, rfl⟩⟩
    · unfold tick at h
      simp only at h
      split at h
      · obtain ⟨h1, h2, h3, h4, h5⟩ := revealAnswer_ledger _ s1 none h
        have hp := App.clearTimer_progress s.app s.timerInterval
        exact ⟨h1, by rw [h2], h3, fun _ => ⟨h4.trans hp.1, h5.trans hp.2⟩⟩
      · cases h
        exact ⟨rfl, le_refl _, rfl, fun _ => ⟨rfl, rfl⟩⟩
    · cases h

theorem runTimedChallenge_ledger (host : Host) :
    ∀ (events : List TimedEvent) (s s1 : TimedChallenge),
      runTimedChallenge host s events = some s1 →
      s1.items = s.items ∧ s.index ≤ s1.index ∧ s1.totalSession = s.totalSession ∧
      (s1.index < s1.items.length →
        s1.app.progress = s.app.progress ∧ s1.app.storage = s.app.storage) := by
  intro events
  induction events with
  | nil =>
    intro s s1 h
    cases h
    exact ⟨rfl, le_refl _, rfl, fun _ => ⟨rfl, rfl⟩⟩
  | cons e es ih =>
    intro s s1 h
    simp only [runTimedChallenge] at h
    cases hstep : stepTimedChallenge host s e with
    | none => simp [hstep] at h
    | some s2 =>
      simp only [hstep, Option.some_bind] at h
      obtain ⟨a1, a2, a4, a3⟩ := stepTimedChallenge_ledger host s s2 e hstep
      obtain ⟨b1, b2, b4, b3⟩ := ih s2 s1 h
      refine ⟨b1.trans a1, le_trans a2 b2, b4.trans a4, fun hlt => ?_⟩
      obtain ⟨c1, c2⟩ := b3 hlt
      obtain ⟨d1, d2⟩ := a3 (by rw [← b1]; omega)
      exact ⟨c1.trans d1, c2.trans d2⟩

theorem startFlashcards_ledger (host : Host) (progress : Progress) (storage : Option String)
    (nextTimer : Nat) (catalog : List DefinitionItem) (rand : Draws) :
    (startFlashcards host (App.atMenu progress storage nextTimer) catalog rand).items.length
      = catalog.length ∧
    ((startFlashcards host (App.atMenu progress storage nextTimer) catalog rand).index
        < catalog.length →
      (startFlashcards host (App.atMenu progress storage nextTimer) catalog rand).app.progress
        = progress ∧
      (startFlashcards host (App.atMenu progress storage nextTimer) catalog rand).app.storage
        = storage) := by
  have h :
      (startFlashcards host (App.atMenu progress storage nextTimer) catalog rand).items
        = shuffle catalog rand ∧
      (startFlashcards host (App.atMenu progress storage nextTimer) catalog rand).index = 0 ∧
      ((startFlashcards host (App.atMenu progress storage nextTimer) catalog rand).index <
          (startFlashcards host (App.atMenu progress storage nextTimer) catalog
            rand).items.length →
        (startFlashcards host (App.atMenu progress storage nextTimer) catalog
          rand).app.progress = progress ∧
        (startFlashcards host (App.atMenu progress storage nextTimer) catalog
          rand).app.storage = storage) := renderCard_ledger host _
  have hl := (congrArg List.length h.1).trans (shuffle_length catalog rand)
  exact ⟨hl, fun hlt => h.2.2 (by rw [hl]; exact hlt)⟩

theorem startMultipleChoice_ledger (host : Host) (progress : Progress)
    (storage : Option String) (nextTimer : Nat) (catalog : List McQuestion) (rand : Draws) :
    (startMultipleChoice host (App.atMenu progress storage nextTimer) catalog
      rand).questions.length = catalog.length ∧
    ((startMultipleChoice host (App.atMenu progress storage nextTimer) catalog rand).index
        < catalog.length →
      (startMultipleChoice host (App.atMenu progress storage nextTimer) catalog
        rand).app.progress = progress ∧
      (startMultipleChoice host (App.atMenu progress storage nextTimer) catalog
        rand).app.storage = storage) := by
  have h :
      (startMultipleChoice host (App.atMenu progress storage nextTimer) catalog rand).questions
        = shuffle catalog rand ∧
      (startMultipleChoice host (App.atMenu progress storage nextTimer) catalog rand).index
        = 0 ∧
      ((startMultipleChoice host (App.atMenu progress storage nextTimer) catalog rand).index <
          (startMultipleChoice host (App.atMenu progress storage nextTimer) catalog
            rand).questions.length →
        (startMultipleChoice host (App.atMenu progress storage nextTimer) catalog
          rand).app.progress = progress ∧
        (startMultipleChoice host (App.atMenu progress storage nextTimer) catalog
          rand).app.storage = storage) := renderQuestion_ledger host _
  have hl := (congrArg List.length h.1).trans (shuffle_length catalog rand)
  exact ⟨hl, fun hlt => h.2.2 (by rw [hl]; exact hlt)⟩

/-- C3, amended: an abandoned session contributes nothing to the ledger. In a flashcard,
multiple-choice or timed session on a working set of N items, after any number k < N of
rounds (an answer and the advance to the next item) "Back to menu" can be pressed, the menu is
shown, and the ledger and the storage record are the ones from before the session; and
whatever events happen in the session (answers, "Back to menu", timers that fire), as long as
the cursor is below N the ledger and the storage record are the ones from before the
session. -/
theorem abandoned_session_leaves_ledger :
    (∀ (host : Host) (progress : Progress) (storage : Option String) (nextTimer : Nat)
        (catalog : List DefinitionItem) (rand : Draws) (answers : List String),
      answers.length < catalog.length →
      ∃ s s1,
        roundsFlashcards host
          (startFlashcards host (App.atMenu progress storage nextTimer) catalog rand) answers
          = some s ∧
        s.totalThisSession = answers.length ∧
        stepFlashcards host s .back = some s1 ∧ s1.screen = .menu ∧
        s1.app.progress = progress ∧ s1.app.storage = storage) ∧
    (∀ (host : Host) (progress : Progress) (storage : Option String) (nextTimer : Nat)
        (catalog : List McQuestion) (rand : Draws) (clicks : List Nat),
      (∀ q ∈ catalog, q.options.length = 4 ∧ q.answer < 4) → (∀ i ∈ clicks, i < 4) →
      clicks.length < catalog.length →
      ∃ s s1,
        roundsMultipleChoice host
          (startMultipleChoice host (App.atMenu progress storage nextTimer) catalog rand) clicks
          = some s ∧
        s.totalSession = catalog.length ∧
        stepMultipleChoice host s .back = some s1 ∧ s1.screen = .menu ∧
        s1.app.progress = progress ∧ s1.app.storage = storage) ∧
    (∀ (host : Host) (progress : Progress) (storage : Option String) (nextTimer : Nat)
        (catalog : List DefinitionItem) (rand : Draws) (ch : Chance)
        (answers : List ((List String → Option Nat) × Chance)),
      (∀ a ∈ answers, ∀ opts i, a.1 opts = some i → i < opts.length) →
      answers.length < min 8 catalog.length →
      ∃ s0 s s1,
        startTimedChallenge host (App.atMenu progress storage nextTimer) catalog rand ch
          = some s0 ∧
        roundsTimedChallenge host s0 answers = some s ∧
        s.totalSession = min 8 catalog.length ∧
        stepTimedChallenge host s .back = some s1 ∧ s1.screen = .menu ∧
        s1.app.progress = progress ∧ s1.app.storage = storage) ∧
    (∀ (host : Host) (progress : Progress) (storage : Option String) (nextTimer : Nat)
        (catalog : List DefinitionItem) (rand : Draws) (events : List FlashEvent)
        (s : Flashcards),
      runFlashcards host
        (startFlashcards host (App.atMenu progress storage nextTimer) catalog rand) events
        = some s →
      s.index < catalog.length →
      s.app.progress = progress ∧ s.app.storage = storage) ∧
    (∀ (host : Host) (progress : Progress) (storage : Option String) (nextTimer : Nat)
        (catalog : List McQuestion) (rand : Draws) (events : List QuizEvent)
        (s : MultipleChoice),
      runMultipleChoice host
        (startMultipleChoice host (App.atMenu progress storage nextTimer) catalog rand) events
        = some s →
      s.index < catalog.length →
      s.app.progress = progress ∧ s.app.storage = storage) ∧
    (∀ (host : Host) (progress : Progress) (storage : Option String) (nextTimer : Nat)
        (catalog : List DefinitionItem) (rand : Draws) (ch : Chance)
        (events : List TimedEvent) (s0 s : TimedChallenge),
      startTimedChallenge host (App.atMenu progress storage nextTimer) catalog rand ch
        = some s0 →
      runTimedChallenge host s0 events = some s →
      s.index < min 8 catalog.length →
      s.app.progress = progress ∧ s.app.storage = storage) := by
  refine ⟨?_, ?_, ?_, ?_, ?_, ?_⟩
  · intro host progress storage nextTimer catalog rand answers hlen
    have hN : answers.length < (shuffle catalog rand).length := by
      rw [shuffle_length]; exact hlen
    obtain ⟨s, hrun, hafter⟩ := roundsFlashcards_after host (shuffle catalog rand) progress
      storage answers 0 _ (startFlashcards_after host progress storage nextTimer catalog rand)
      (by omega)
    obtain ⟨_, _, ht, _, hm⟩ := hafter
    rw [Nat.zero_add, List.getElem?_eq_getElem hN] at hm
    obtain ⟨hscr, hpr, hst⟩ := hm
    refine ⟨s, _, hrun, by simpa using ht, stepFlashcards_back_card host s _ hscr, rfl, ?_, ?_⟩
    · simpa [App.renderMenu, (App.clearTimer_progress s.app s.timeoutId).1] using hpr
    · simpa [App.renderMenu, (App.clearTimer_progress s.app s.timeoutId).2] using hst
  · intro host progress storage nextTimer catalog rand clicks hq hc hlen
    have hN : clicks.length < (shuffle catalog rand).length := by
      rw [shuffle_length]; exact hlen
    have hq2 : ∀ q ∈ shuffle catalog rand, q.options.length = 4 ∧ q.answer < 4 :=
      fun q h => hq q ((shuffle_perm_aux catalog rand).mem_iff.mp h)
    obtain ⟨s, hrun, hafter⟩ := roundsMultipleChoice_after host (shuffle catalog rand)
      progress storage hq2 clicks 0 _
      (startMultipleChoice_after host progress storage nextTimer catalog rand) hc (by omega)
    obtain ⟨_, _, ht, _, hm⟩ := hafter
    rw [Nat.zero_add, List.getElem?_eq_getElem hN] at hm
    obtain ⟨hscr, hpr, hst⟩ := hm
    refine ⟨s, _, hrun, by rw [ht, shuffle_length],
      stepMultipleChoice_back_question host s _ hscr, rfl, ?_, ?_⟩
    · simpa [App.renderMenu, (App.clearTimer_progress s.app s.timeoutId).1] using hpr
    · simpa [App.renderMenu, (App.clearTimer_progress s.app s.timeoutId).2] using hst
  · intro host progress storage nextTimer catalog rand ch answers ha hlen
    obtain ⟨s0, h0, _, hafter0⟩ :=
      startTimedChallenge_after host progress storage nextTimer catalog rand ch
    have hlenItems := workingSet_length catalog.length rand
    obtain ⟨s, hrun, hafter⟩ := roundsTimedChallenge_after host _ catalog.length progress
      storage (workingSet_refs catalog.length rand) answers 0 s0 hafter0 ha (by omega)
    obtain ⟨_, _, ht, _, hm⟩ := hafter
    rw [Nat.zero_add, List.getElem?_eq_getElem (by omega)] at hm
    obtain ⟨shuffled, item, t, hscr, _, _, _, hpr, hst⟩ := hm
    refine ⟨s0, s, _, h0, hrun, by rw [ht, hlenItems],
      stepTimedChallenge_back_question host s _ hscr, rfl, ?_, ?_⟩
    · simpa [App.renderMenu, (App.clearTimer_progress _ s.timerInterval).1,
        (App.clearTimer_progress s.app s.timeoutId).1] using hpr
    · simpa [App.renderMenu, (App.clearTimer_progress _ s.timerInterval).2,
        (App.clearTimer_progress s.app s.timeoutId).2] using hst
  · intro host progress storage nextTimer catalog rand events s hrun hlt
    obtain ⟨h1, h2, h3⟩ := runFlashcards_ledger host events _ s hrun
    obtain ⟨g1, g2⟩ := startFlashcards_ledger host progress storage nextTimer catalog rand
    obtain ⟨c1, c2⟩ := h3 (by rw [h1, g1]; exact hlt)
    obtain ⟨d1, d2⟩ := g2 (by omega)
    exact ⟨c1.trans d1, c2.trans d2⟩
  · intro host progress storage nextTimer catalog rand events s hrun hlt
    obtain ⟨h1, h2, h3⟩ := runMultipleChoice_ledger host events _ s hrun
    obtain ⟨g1, g2⟩ := startMultipleChoice_ledger host progress storage nextTimer catalog rand
    obtain ⟨c1, c2⟩ := h3 (by rw [h1, g1]; exact hlt)
    obtain ⟨d1, d2⟩ := g2 (by omega)
    exact ⟨c1.trans d1, c2.trans d2⟩
  · intro host progress storage nextTimer catalog rand ch events s0 s h0 hrun hlt
    obtain ⟨h1, h2, _, h3⟩ := runTimedChallenge_ledger host events s0 s hrun
    obtain ⟨g1, g2, g3⟩ := nextQuestion_ledger host ch _ s0 h0
    have hl0 : s0.items.length = min 8 catalog.length := by
      rw [g1]
      exact workingSet_length catalog.length rand
    have hitems : s.items.length = min 8 catalog.length := by rw [h1, hl0]
    obtain ⟨c1, c2⟩ := h3 (by omega)
    obtain ⟨d1, d2⟩ := g3 (by omega)
    exact ⟨c1.trans d1, c2.trans d2⟩

theorem abandoned_session_leaves_ledger_witness :
    ["response time", "tokens"].length < definitions.length ∧
    ∃ s s1,
      roundsFlashcards referenceHost
        (startFlashcards referenceHost (App.atMenu sampleProgress none 1) definitions drawFirst)
        ["response time", "tokens"] = some s ∧
      s.totalThisSession = ["response time", "tokens"].length ∧
      stepFlashcards referenceHost s .back = some s1 ∧ s1.screen = .menu ∧
      s1.app.progress = sampleProgress ∧ s1.app.storage = none :=
  ⟨by decide,
   abandoned_session_leaves_ledger.1 referenceHost sampleProgress none 1 definitions drawFirst
     ["response time", "tokens"] (by decide)⟩

/-! ### Scoring of a choice -/

theorem revealAnswer_counts (s : TimedChallenge) (question : DefinitionItem) (k : Int)
    (selected : Option Nat) (hcur : s.current = some question)
    (hk : question.correctIdx = some k) (h0 : 0 ≤ k) (hlt : k < s.screen.optionCount)
    (hsel : ∀ i, selected = some i → i < s.screen.optionCount) :
    ∃ s1, revealAnswer s selected = some s1 ∧
      s1.correctSession =
        (if selected.map Int.ofNat = some k then s.correctSession + 1 else s.correctSession) ∧
      s1.totalSession = s.totalSession ∧ s1.index = s.index := by
  have hv : validOption question.correctIdx s.screen.optionCount = true := by
    simp [validOption, hk, h0, hlt]
  cases selected with
  | none =>
    simp only [revealAnswer, hcur, hv, if_true]
    exact ⟨_, rfl, by simp, rfl, rfl⟩
  | some i =>
    have hi := hsel i rfl
    by_cases hic : (i : Int) = k
    · simp only [revealAnswer, hcur, hk, hic, hi, if_true]
      exact ⟨_, rfl, by simp [hic], rfl, rfl⟩
    · have hne : ¬ (some k = some (i : Int)) := fun h => hic (Option.some.inj h).symm
      rw [hk] at hv
      simp only [revealAnswer, hcur, hk, hne, hi, hv, if_false, and_self, if_true]
      exact ⟨_, rfl, by simp [hic], rfl, rfl⟩

/-- C7: in the timed round, for every selection (an option on the screen, or `null`) and every
recorded correct index `k` that is a position of the options, `revealAnswer` returns and adds
one to `correctSession` exactly when the selection is not `null` and equals `k`, and leaves
it as it is otherwise, in particular for `null`; in the multiple-choice round a click on
option `i` adds one to `correctSession` exactly when `i` is the question's `answer`. -/
theorem choice_scoring :
    (∀ (s : TimedChallenge) (question : DefinitionItem) (k : Int) (selected : Option Nat),
      s.current = some question → question.correctIdx = some k → 0 ≤ k →
      k < s.screen.optionCount → (∀ i, selected = some i → i < s.screen.optionCount) →
      ∃ s1, revealAnswer s selected = some s1 ∧
        (s1.correctSession = s.correctSession + 1 ↔ ∃ i, selected = some i ∧ (i : Int) = k) ∧
        (s1.correctSession = s.correctSession ∨ ∃ i, selected = some i ∧ (i : Int) = k) ∧
        (selected = none → s1.correctSession = s.correctSession)) ∧
    (∀ (host : Host) (s : MultipleChoice) (q : McQuestion) (i : Nat),
      s.screen = .question q → i < q.options.length → q.answer < q.options.length →
      ∃ s1, stepMultipleChoice host s (.click i) = some s1 ∧
        (s1.correctSession = s.correctSession + 1 ↔ i = q.answer) ∧
        (s1.correctSession = s.correctSession ∨ i = q.answer)) := by
  refine ⟨?_, ?_⟩
  · intro s question k selected hcur hk h0 hlt hsel
    obtain ⟨s1, h1, hc, _, _⟩ := revealAnswer_counts s question k selected hcur hk h0 hlt hsel
    refine ⟨s1, h1, ?_, ?_, ?_⟩
    · cases selected with
      | none => simp at hc; simp [hc]
      | some i =>
        by_cases hic : (i : Int) = k
        · simp [hic] at hc; simp [hc, hic]
        · simp [hic] at hc; simp [hc, hic]
    · cases selected with
      | none => simp at hc; exact Or.inl hc
      | some i =>
        by_cases hic : (i : Int) = k
        · exact Or.inr ⟨i, rfl, hic⟩
        · simp [hic] at hc; exact Or.inl hc
    · intro hnone
      subst hnone
      simpa using hc
  · intro host s q i hscr hi ha
    by_cases h : i = q.answer
    · have hi2 : q.answer < q.options.length := ha
      simp only [stepMultipleChoice, hscr, h, hi2, if_true, App.setTimer]
      exact ⟨_, rfl, by simp, Or.inr trivial⟩
    · simp only [stepMultipleChoice, hscr, hi, h, ha, if_true, if_false, App.setTimer]
      exact ⟨_, rfl, by simp, Or.inl rfl⟩

theorem choice_scoring_witness :
    ∃ s1, revealAnswer sampleTimedLastTick (some 0) = some s1 ∧
      (s1.correctSession = sampleTimedLastTick.correctSession + 1 ↔
        ∃ i : Nat, some 0 = some i ∧ (i : Int) = 0) ∧
      (s1.correctSession = sampleTimedLastTick.correctSession ∨
        ∃ i : Nat, some 0 = some i ∧ (i : Int) = 0) ∧
      ((some 0 : Option Nat) = none → s1.correctSession = sampleTimedLastTick.correctSession) :=
  choice_scoring.1 sampleTimedLastTick (sampleTimedLastTick.current.get (by decide)) 0 (some 0)
    (Option.some_get _).symm (by decide) (by decide) (by decide) (by decide)

/-! ### Timeout of the countdown -/

/-- C8, counterexample: in the timed challenge on `definitions`, when the last tick of the
countdown of the first question elapses, the session's total count is 8 before and 8 after,
not 8 + 1; the correct count stays 0. -/
theorem timeout_total_not_incremented :
    (tick sampleTimedLastTick).map
      (fun s1 => (sampleTimedLastTick.timeRemaining, sampleTimedLastTick.totalSession,
        s1.totalSession, sampleTimedLastTick.correctSession, s1.correctSession)) =
      some (1, 8, 8, 0, 0) ∧
    (8 : Nat) ≠ 8 + 1 := by
  decide

/-- C8, amended: when the countdown of a timed session reaches zero (the tick that takes
`timeRemaining` to zero, which calls `revealAnswer(null)`), for every current item whose
question is on the screen, the session's correct count and its total count, fixed to the size
of the working set when the session starts, both stay as they are, and so does the cursor. -/
theorem timeout_leaves_counts (s : TimedChallenge) (hrev : s.canReveal = true)
    (htr : s.timeRemaining ≤ 1) :
    ∃ s1, tick s = some s1 ∧ s1.correctSession = s.correctSession ∧
      s1.totalSession = s.totalSession ∧ s1.index = s.index := by
  unfold TimedChallenge.canReveal at hrev
  cases hcur : s.current with
  | none => simp [hcur] at hrev
  | some question =>
    simp only [hcur] at hrev
    cases hk : question.correctIdx with
    | none => simp [validOption, hk] at hrev
    | some k =>
      simp only [validOption, hk, Bool.and_eq_true, decide_eq_true_eq] at hrev
      obtain ⟨s1, h1, hc, ht, hi⟩ := revealAnswer_counts
        { s with timeRemaining := s.timeRemaining - 1
                 app := s.app.clearTimer s.timerInterval } question k none hcur hk hrev.1
        hrev.2 (by simp)
      have hle : s.timeRemaining - 1 ≤ 0 := by omega
      refine ⟨s1, ?_, by simpa using hc, ht, hi⟩
      simp only [tick, hle, if_true]
      exact h1

theorem timeout_leaves_counts_witness :
    sampleTimedLastTick.canReveal = true ∧ sampleTimedLastTick.timeRemaining ≤ 1 ∧
    ∃ s1, tick sampleTimedLastTick = some s1 ∧
      s1.correctSession = sampleTimedLastTick.correctSession ∧
      s1.totalSession = sampleTimedLastTick.totalSession ∧
      s1.index = sampleTimedLastTick.index :=
  ⟨by decide, by decide, timeout_leaves_counts sampleTimedLastTick (by decide) (by decide)⟩

/-! ### Session lifecycle -/

theorem flashcards_lifecycle (host : Host) (progress : Progress) (storage : Option String)
    (nextTimer : Nat) (catalog : List DefinitionItem) (rand : Draws) (answers : List String)
    (hlen : answers.length ≤ catalog.length) :
    ∃ s,
      roundsFlashcards host
        (startFlashcards host (App.atMenu progress storage nextTimer) catalog rand) answers
        = some s ∧
      s.index = answers.length ∧ s.totalThisSession = answers.length ∧
      (s.screen = .summary ↔ answers.length = catalog.length) ∧
      (answers.length = catalog.length →
        s.app.progress = foldFlashcards progress s.correctThisSession catalog.length ∧
        ∀ a, roundFlashcards host s a = none) := by
  have hN : (shuffle catalog rand).length = catalog.length := shuffle_length catalog rand
  obtain ⟨s, hrun, hafter⟩ := roundsFlashcards_after host (shuffle catalog rand) progress
    storage answers 0 _ (startFlashcards_after host progress storage nextTimer catalog rand)
    (by omega)
  obtain ⟨_, hx, ht, _, hm⟩ := hafter
  rw [Nat.zero_add] at hx ht hm
  refine ⟨s, hrun, hx, ht, ?_⟩
  by_cases hk : answers.length < catalog.length
  · rw [List.getElem?_eq_getElem (by omega)] at hm
    obtain ⟨hscr, _, _⟩ := hm
    refine ⟨?_, fun h => absurd h (by omega)⟩
    rw [hscr]
    constructor
    · intro h; cases h
    · intro h; omega
  · have hk2 : answers.length = catalog.length := by omega
    rw [List.getElem?_eq_none (by omega)] at hm
    obtain ⟨hscr, hpr, _⟩ := hm
    refine ⟨⟨fun _ => hk2, fun _ => hscr⟩, fun _ => ⟨by rw [hpr, hk2], ?_⟩⟩
    intro a
    simp [roundFlashcards, stepFlashcards, hscr]

theorem multipleChoice_lifecycle (host : Host) (progress : Progress)
    (storage : Option String) (nextTimer : Nat) (catalog : List McQuestion) (rand : Draws)
    (clicks : List Nat) (hq : ∀ q ∈ catalog, q.options.length = 4 ∧ q.answer < 4)
    (hc : ∀ i ∈ clicks, i < 4) (hlen : clicks.length ≤ catalog.length) :
    ∃ s,
      roundsMultipleChoice host
        (startMultipleChoice host (App.atMenu progress storage nextTimer) catalog rand) clicks
        = some s ∧
      s.index = clicks.length ∧ s.totalSession = catalog.length ∧
      (s.screen = .summary ↔ clicks.length = catalog.length) ∧
      (clicks.length = catalog.length →
        s.app.progress = foldMultiple progress s.correctSession catalog.length ∧
        ∀ i, roundMultipleChoice host s i = none) := by
  have hN : (shuffle catalog rand).length = catalog.length := shuffle_length catalog rand
  have hq2 : ∀ q ∈ shuffle catalog rand, q.options.length = 4 ∧ q.answer < 4 :=
    fun q h => hq q ((shuffle_perm_aux catalog rand).mem_iff.mp h)
  obtain ⟨s, hrun, hafter⟩ := roundsMultipleChoice_after host (shuffle catalog rand) progress
    storage hq2 clicks 0 _
    (startMultipleChoice_after host progress storage nextTimer catalog rand) hc (by omega)
  obtain ⟨_, hx, ht, _, hm⟩ := hafter
  rw [Nat.zero_add] at hx hm
  rw [hN] at ht
  refine ⟨s, hrun, hx, ht, ?_⟩
  by_cases hk : clicks.length < catalog.length
  · rw [List.getElem?_eq_getElem (by omega)] at hm
    obtain ⟨hscr, _, _⟩ := hm
    refine ⟨?_, fun h => absurd h (by omega)⟩
    rw [hscr]
    constructor
    · intro h; cases h
    · intro h; omega
  · have hk2 : clicks.length = catalog.length := by omega
    rw [List.getElem?_eq_none (by omega)] at hm
    obtain ⟨hscr, hpr, _⟩ := hm
    refine ⟨⟨fun _ => hk2, fun _ => hscr⟩, fun _ => ⟨by rw [hpr, hN], ?_⟩⟩
    intro i
    simp [roundMultipleChoice, stepMultipleChoice, hscr]

theorem timedChallenge_lifecycle (host : Host) (progress : Progress)
    (storage : Option String) (nextTimer : Nat) (catalog : List DefinitionItem) (rand : Draws)
    (ch : Chance) (answers : List ((List String → Option Nat) × Chance))
    (ha : ∀ a ∈ answers, ∀ opts i, a.1 opts = some i → i < opts.length)
    (hlen : answers.length ≤ min 8 catalog.length) :
    ∃ s0 s,
      startTimedChallenge host (App.atMenu progress storage nextTimer) catalog rand ch
        = some s0 ∧
      roundsTimedChallenge host s0 answers = some s ∧
      s.index = answers.length ∧ s.totalSession = min 8 catalog.length ∧
      (s.screen = .summary ↔ answers.length = min 8 catalog.length) ∧
      (answers.length = min 8 catalog.length →
        s.app.progress = foldTimed progress s.correctSession (min 8 catalog.length) ∧
        ∀ answer ch2, roundTimedChallenge host s answer ch2 = none) := by
  obtain ⟨s0, h0, _, hafter0⟩ :=
    startTimedChallenge_after host progress storage nextTimer catalog rand ch
  have hN := workingSet_length catalog.length rand
  obtain ⟨s, hrun, hafter⟩ := roundsTimedChallenge_after host _ catalog.length progress
    storage (workingSet_refs catalog.length rand) answers 0 s0 hafter0 ha (by omega)
  obtain ⟨_, hx, ht, _, hm⟩ := hafter
  rw [Nat.zero_add] at hx hm
  rw [hN] at ht
  refine ⟨s0, s, h0, hrun, hx, ht, ?_⟩
  by_cases hk : answers.length < min 8 catalog.length
  · rw [List.getElem?_eq_getElem (by omega)] at hm
    obtain ⟨shuffled, item, t, hscr, _⟩ := hm
    refine ⟨?_, fun h => absurd h (by omega)⟩
    rw [hscr]
    constructor
    · intro h; cases h
    · intro h; omega
  · have hk2 : answers.length = min 8 catalog.length := by omega
    rw [List.getElem?_eq_none (by omega)] at hm
    obtain ⟨hscr, hp, hpr, _⟩ := hm
    refine ⟨⟨fun _ => hk2, fun _ => hscr⟩, fun _ => ⟨by rw [hpr, hN], ?_⟩⟩
    intro answer ch2
    simp [roundTimedChallenge, TimedChallenge.countdownStart, hp]

/-- C9: for the flashcard, the multiple-choice and the timed session on a working set of N
items (N is the size of the catalog, and `min 8` of it in the timed challenge), the rounds of
one answer followed by one advance can be performed one after the other; after k ≤ N of them
the cursor is k, the summary is on the screen exactly when k = N, the session total is then N
(it is k after k rounds of flashcards and N throughout in the other two modes), the session
has then been added to the ledger, and no further round can be performed. -/
theorem session_lifecycle :
    (∀ (host : Host) (progress : Progress) (storage : Option String) (nextTimer : Nat)
        (catalog : List DefinitionItem) (rand : Draws) (answers : List String),
      answers.length ≤ catalog.length →
      ∃ s,
        roundsFlashcards host
          (startFlashcards host (App.atMenu progress storage nextTimer) catalog rand) answers
          = some s ∧
        s.index = answers.length ∧ s.totalThisSession = answers.length ∧
        (s.screen = .summary ↔ answers.length = catalog.length) ∧
        (answers.length = catalog.length →
          s.app.progress = foldFlashcards progress s.correctThisSession catalog.length ∧
          ∀ a, roundFlashcards host s a = none)) ∧
    (∀ (host : Host) (progress : Progress) (storage : Option String) (nextTimer : Nat)
        (catalog : List McQuestion) (rand : Draws) (clicks : List Nat),
      (∀ q ∈ catalog, q.options.length = 4 ∧ q.answer < 4) → (∀ i ∈ clicks, i < 4) →
      clicks.length ≤ catalog.length →
      ∃ s,
        roundsMultipleChoice host
          (startMultipleChoice host (App.atMenu progress storage nextTimer) catalog rand) clicks
          = some s ∧
        s.index = clicks.length ∧ s.totalSession = catalog.length ∧
        (s.screen = .summary ↔ clicks.length = catalog.length) ∧
        (clicks.length = catalog.length →
          s.app.progress = foldMultiple progress s.correctSession catalog.length ∧
          ∀ i, roundMultipleChoice host s i = none)) ∧
    (∀ (host : Host) (progress : Progress) (storage : Option String) (nextTimer : Nat)
        (catalog : List DefinitionItem) (rand : Draws) (ch : Chance)
        (answers : List ((List String → Option Nat) × Chance)),
      (∀ a ∈ answers, ∀ opts i, a.1 opts = some i → i < opts.length) →
      answers.length ≤ min 8 catalog.length →
      ∃ s0 s,
        startTimedChallenge host (App.atMenu progress storage nextTimer) catalog rand ch
          = some s0 ∧
        roundsTimedChallenge host s0 answers = some s ∧
        s.index = answers.length ∧ s.totalSession = min 8 catalog.length ∧
        (s.screen = .summary ↔ answers.length = min 8 catalog.length) ∧
        (answers.length = min 8 catalog.length →
          s.app.progress = foldTimed progress s.correctSession (min 8 catalog.length) ∧
          ∀ answer ch2, roundTimedChallenge host s answer ch2 = none)) :=
  ⟨flashcards_lifecycle, multipleChoice_lifecycle, timedChallenge_lifecycle⟩

theorem session_lifecycle_witness :
    (["response time", "tokens", "grammar"].length ≤ definitions.length ∧
      ∃ s,
        roundsFlashcards referenceHost
          (startFlashcards referenceHost (App.atMenu defaultProgress none 1) definitions
            drawLast) ["response time", "tokens", "grammar"] = some s ∧
        s.index = 3 ∧ s.totalThisSession = 3 ∧ ¬ s.screen = .summary) ∧
    ((∀ q ∈ mcQuestions, q.options.length = 4 ∧ q.answer < 4) ∧
      (∀ i ∈ [0, 1, 0, 1, 0, 1, 3, 0, 1, 1], i < 4) ∧
      [0, 1, 0, 1, 0, 1, 3, 0, 1, 1].length ≤ mcQuestions.length ∧
      ∃ s,
        roundsMultipleChoice referenceHost
          (startMultipleChoice referenceHost (App.atMenu defaultProgress none 1) mcQuestions
            drawLast) [0, 1, 0, 1, 0, 1, 3, 0, 1, 1] = some s ∧
        s.index = 10 ∧ s.totalSession = 10 ∧ s.screen = .summary) ∧
    ((∀ a ∈ List.replicate 8 (clickFirst, chanceIdentity),
        ∀ opts i, a.1 opts = some i → i < opts.length) ∧
      (List.replicate 8 (clickFirst, chanceIdentity)).length ≤ min 8 definitions.length ∧
      ∃ s0 s,
        startTimedChallenge referenceHost (App.atMenu defaultProgress none 1) definitions
          drawFirst chanceIdentity = some s0 ∧
        roundsTimedChallenge referenceHost s0 (List.replicate 8 (clickFirst, chanceIdentity))
          = some s ∧
        s.index = 8 ∧ s.totalSession = 8 ∧ s.screen = .summary) := by
  have hvalid : ∀ a ∈ List.replicate 8 (clickFirst, chanceIdentity),
      ∀ opts i, a.1 opts = some i → i < opts.length := by
    intro a ha opts i hi
    rw [List.eq_of_mem_replicate ha] at hi
    simp only [clickFirst] at hi
    split at hi
    · cases hi; assumption
    · cases hi
  obtain ⟨s, hrun, hx, ht, hscr, _⟩ :=
    session_lifecycle.1 referenceHost defaultProgress none 1 definitions drawLast
      ["response time", "tokens", "grammar"] (by decide)
  obtain ⟨s2, hrun2, hx2, ht2, hscr2, _⟩ :=
    session_lifecycle.2.1 referenceHost defaultProgress none 1 mcQuestions drawLast
      [0, 1, 0, 1, 0, 1, 3, 0, 1, 1] (by decide) (by decide) (by decide)
  obtain ⟨s0, s3, h0, hrun3, hx3, ht3, hscr3, _⟩ :=
    session_lifecycle.2.2 referenceHost defaultProgress none 1 definitions drawFirst
      chanceIdentity (List.replicate 8 (clickFirst, chanceIdentity)) hvalid (by decide)
  exact ⟨⟨by decide, s, hrun, hx, ht, fun h => absurd (hscr.mp h) (by decide)⟩,
    ⟨by decide, by decide, by decide, s2, hrun2, hx2, ht2, hscr2.mpr (by decide)⟩,
    ⟨hvalid, by decide, s0, s3, h0, hrun3, hx3, ht3, hscr3.mpr (by decide)⟩⟩

/-! ### The recorded correct index -/

/-- C10: in every timed round, for every catalog, every current item and every outcome of the
random choices, `nextQuestion` shows an option list and records on the current item an index
that is a position of that list, and the option at that position is the definition of the
current item. -/
theorem recorded_index_is_true_definition (host : Host) (ch : Chance) (s : TimedChallenge)
    (item : DefinitionItem) (hcur : s.current = some item) :
    ∃ (s1 : TimedChallenge) (shuffled : List String) (item1 : DefinitionItem) (c : Nat),
      nextQuestion host ch s = some s1 ∧ s1.screen = .question shuffled ∧
      s1.current = some item1 ∧ item1.term = item.term ∧
      item1.definition = item.definition ∧
      item1.correctIdx = some (c : Int) ∧ c < shuffled.length ∧
      shuffled[c]? = some item.definition := by
  unfold TimedChallenge.current at hcur
  cases hr : s.items[s.index]? with
  | none => simp [hr] at hcur
  | some r =>
    simp only [hr] at hcur
    have hlt : r < s.definitions.length := (List.getElem?_eq_some.mp hcur).1
    have hmem : item.definition ∈ shuffle (item.definition ::
        ((ch.order (s.definitions.filter (fun d => d.term != item.term))).take 3).map
          (fun d => d.definition)) ch.rand :=
      (shuffle_perm_aux _ _).mem_iff.mpr (List.mem_cons_self _ _)
    obtain ⟨c, hc, hclt, hget⟩ := indexOf_recorded _ _ hmem
    simp only [nextQuestion, hr, hcur, hc]
    refine ⟨_, _, { item with correctIdx := some (c : Int) }, c, rfl, rfl, ?_, rfl, rfl, rfl,
      hclt, hget⟩
    simp [TimedChallenge.current, hr, List.getElem?_set, hlt]

theorem recorded_index_is_true_definition_witness :
    ∃ (s1 : TimedChallenge) (shuffled : List String) (item1 : DefinitionItem) (c : Nat),
      nextQuestion referenceHost chanceIdentity
        (timedInitial (App.atMenu defaultProgress none 1) definitions drawLast) = some s1 ∧
      s1.screen = .question shuffled ∧ s1.current = some item1 ∧
      item1.term = "Latency" ∧
      item1.definition =
        ((timedInitial (App.atMenu defaultProgress none 1) definitions drawLast).current.get
          (by decide)).definition ∧
      item1.correctIdx = some (c : Int) ∧ c < shuffled.length ∧
      shuffled[c]? = some
        ((timedInitial (App.atMenu defaultProgress none 1) definitions drawLast).current.get
          (by decide)).definition :=
  recorded_index_is_true_definition referenceHost chanceIdentity
    (timedInitial (App.atMenu defaultProgress none 1) definitions drawLast)
    ((timedInitial (App.atMenu defaultProgress none 1) definitions drawLast).current.get
      (by decide))
    (Option.some_get _).symm

/-! ### Distractors and the working set of the timed challenge -/

theorem evaluateAnswer_eq_true_iff (toLowerCase : String → String) (input : String)
    (item : DefinitionItem) :
    evaluateAnswer toLowerCase input item = true ↔
      ∀ kw ∈ item.keywords, (toLowerCase kw).data <:+: (toLowerCase (trim input)).data := by
  have h := foldl_count_eq
    (fun kw => includes (toLowerCase (trim input)) (toLowerCase kw)) item.keywords 0
  simp only [evaluateAnswer, h, Nat.zero_add, beq_iff_eq, List.countP_eq_length]
  simp only [includes, includesChars_iff]

theorem nextQuestion_options (host : Host) (ch : Chance) (s : TimedChallenge)
    (item : DefinitionItem) (hcur : s.current = some item) :
    ∃ s1, nextQuestion host ch s = some s1 ∧
      s1.screen = .question
        (shuffle (item.definition :: wrongOptions ch s.definitions item) ch.rand) := by
  unfold TimedChallenge.current at hcur
  cases hr : s.items[s.index]? with
  | none => simp [hr] at hcur
  | some r =>
    simp only [hr] at hcur
    simp only [nextQuestion, hr, hcur]
    exact ⟨_, rfl, rfl⟩

theorem current_mem (s : TimedChallenge) (item : DefinitionItem)
    (hcur : s.current = some item) : item ∈ s.definitions := by
  unfold TimedChallenge.current at hcur
  cases hr : s.items[s.index]? with
  | none => simp [hr] at hcur
  | some r =>
    simp only [hr] at hcur
    exact List.getElem?_mem hcur

theorem otherItems_length_terms (catalog : List DefinitionItem) (item : DefinitionItem) :
    (otherItems catalog item).length =
      ((catalog.map (fun d => d.term)).filter (fun t => t != item.term)).length := by
  simp [otherItems, List.filter_map, Function.comp_def]

theorem builtin_other_terms :
    ∀ t ∈ definitions.map (fun d => d.term),
      ((definitions.map (fun d => d.term)).filter (fun u => u != t)).length = 28 := by
  decide

/-- C11: the draw of the wrong options never fails and returns fewer when the catalog is
too small. For every catalog and every current item, when the random sort leaves a
permutation of the other items (those whose term differs from the current item's), with n
their number: `nextQuestion` returns, the wrong options are the definitions of exactly
min(3, n) picked items, each a catalog item with a different term and none picked more often
than it occurs among the other items; the option list is a permutation of the true definition
followed by the wrong options and has 1 + min(3, n) entries, which is 4 for a catalog with the
terms of the built-in 29 definitions. -/
theorem wrong_options_min_three (host : Host) (ch : Chance) (s : TimedChallenge)
    (item : DefinitionItem) (hcur : s.current = some item)
    (hsort : (ch.order (otherItems s.definitions item)).Perm (otherItems s.definitions item)) :
    ∃ (s1 : TimedChallenge) (shuffled : List String) (picked : List DefinitionItem),
      nextQuestion host ch s = some s1 ∧ s1.screen = .question shuffled ∧
      wrongOptions ch s.definitions item = picked.map (fun d => d.definition) ∧
      picked.length = min 3 (otherItems s.definitions item).length ∧
      picked.Subperm (otherItems s.definitions item) ∧
      (∀ d ∈ picked, d ∈ s.definitions ∧ d.term ≠ item.term) ∧
      shuffled.Perm (item.definition :: wrongOptions ch s.definitions item) ∧
      shuffled.length = 1 + min 3 (otherItems s.definitions item).length ∧
      (s.definitions.map (fun d => d.term) = definitions.map (fun d => d.term) →
        shuffled.length = 4) := by
  obtain ⟨s1, h1, hscr⟩ := nextQuestion_options host ch s item hcur
  have hsub : ((ch.order (otherItems s.definitions item)).take 3).Subperm
      (otherItems s.definitions item) :=
    (List.take_sublist 3 _).subperm.trans hsort.subperm
  have hlen : ((ch.order (otherItems s.definitions item)).take 3).length =
      min 3 (otherItems s.definitions item).length := by
    rw [List.length_take, hsort.length_eq]
  have hwlen : (wrongOptions ch s.definitions item).length =
      min 3 (otherItems s.definitions item).length := by
    rw [wrongOptions, List.length_map, hlen]
  have hslen : (shuffle (item.definition :: wrongOptions ch s.definitions item) ch.rand).length
      = 1 + min 3 (otherItems s.definitions item).length := by
    rw [shuffle_length, List.length_cons, hwlen, Nat.add_comm]
  refine ⟨s1, _, (ch.order (otherItems s.definitions item)).take 3, h1, hscr, rfl, hlen, hsub,
    ?_, shuffle_perm_aux _ _, hslen, ?_⟩
  · intro d hd
    have hmem : d ∈ otherItems s.definitions item := hsub.subset hd
    simp only [otherItems, List.mem_filter, bne_iff_ne, ne_eq] at hmem
    exact hmem
  · intro hterms
    rw [hslen, otherItems_length_terms, hterms]
    have hitem : item.term ∈ definitions.map (fun d => d.term) := by
      rw [← hterms]
      exact List.mem_map_of_mem _ (current_mem s item hcur)
    rw [builtin_other_terms item.term hitem]
    rfl

theorem wrong_options_min_three_witness :
    (chanceIdentity.order
        (otherItems (timedInitial (App.atMenu defaultProgress none 1) definitions
          drawFirst).definitions
          ((timedInitial (App.atMenu defaultProgress none 1) definitions drawFirst).current.get
            (by decide)))).Perm
      (otherItems (timedInitial (App.atMenu defaultProgress none 1) definitions
        drawFirst).definitions
        ((timedInitial (App.atMenu defaultProgress none 1) definitions drawFirst).current.get
          (by decide))) ∧
    ∃ (s1 : TimedChallenge) (shuffled : List String) (picked : List DefinitionItem),
      nextQuestion referenceHost chanceIdentity
        (timedInitial (App.atMenu defaultProgress none 1) definitions drawFirst) = some s1 ∧
      s1.screen = .question shuffled ∧ picked.length = 3 ∧ shuffled.length = 4 := by
  obtain ⟨s1, shuffled, picked, h1, hscr, _, hlen, _, _, _, _, h4⟩ :=
    wrong_options_min_three referenceHost chanceIdentity
      (timedInitial (App.atMenu defaultProgress none 1) definitions drawFirst)
      ((timedInitial (App.atMenu defaultProgress none 1) definitions drawFirst).current.get
        (by decide))
      (Option.some_get _).symm (List.Perm.refl _)
  refine ⟨List.Perm.refl _, s1, shuffled, picked, h1, hscr, ?_, h4 rfl⟩
  rw [hlen]
  decide

theorem range_filterMap_getElem? {α : Type} (l : List α) :
    (List.range l.length).filterMap (fun i => l[i]?) = l := by
  have h1 : (List.range l.length).map (fun i => l[i]?) = l.map some := by
    apply List.ext_getElem
    · simp
    · intro j h1 h2
      simp only [List.length_map, List.length_range] at h1
      simp [List.getElem?_eq_getElem h1]
  have h2 : (List.range l.length).filterMap (fun i => l[i]?) =
      ((List.range l.length).map (fun i => l[i]?)).filterMap id := by
    rw [List.filterMap_map]
    rfl
  rw [h2, h1, List.filterMap_map]
  simp

theorem workingSet_nodup (n : Nat) (rand : Draws) :
    ((shuffle (List.range n) rand).take (min 8 (shuffle (List.range n) rand).length)).Nodup :=
  (List.take_sublist _ _).nodup
    ((shuffle_perm_aux (List.range n) rand).nodup_iff.mpr (List.nodup_range n))

theorem workingSet_subperm (catalog : List DefinitionItem) (rand : Draws) :
    (((shuffle (List.range catalog.length) rand).take
      (min 8 (shuffle (List.range catalog.length) rand).length)).filterMap
        (fun r => catalog[r]?)).Subperm catalog := by
  have h1 : ((shuffle (List.range catalog.length) rand).take
      (min 8 (shuffle (List.range catalog.length) rand).length)).Subperm
      (List.range catalog.length) :=
    (List.take_sublist _ _).subperm.trans (shuffle_perm_aux _ rand).subperm
  obtain ⟨l, hp, hs⟩ := h1
  have h2 : (l.filterMap (fun r => catalog[r]?)).Sublist
      ((List.range catalog.length).filterMap (fun r => catalog[r]?)) := hs.filterMap _
  rw [range_filterMap_getElem?] at h2
  exact ⟨_, hp.filterMap _, h2⟩

/-- C12: for every catalog of n definition items and every outcome of the shuffle, the
working set of a timed session has exactly min(8, n) items; they are references to catalog
items (positions of the catalog), no position occurs twice, and the items they refer to are
catalog items taken no more often than they occur in the catalog; the session starts with
cursor 0, correct count 0 and total count min(8, n), before and after its first question is
rendered. -/
theorem timed_working_set (host : Host) (progress : Progress) (storage : Option String)
    (nextTimer : Nat) (catalog : List DefinitionItem) (rand : Draws) (ch : Chance) :
    ∃ s0,
      startTimedChallenge host (App.atMenu progress storage nextTimer) catalog rand ch
        = some s0 ∧
      s0.items = (timedInitial (App.atMenu progress storage nextTimer) catalog rand).items ∧
      s0.items.length = min 8 catalog.length ∧ s0.items.Nodup ∧
      (∀ r ∈ s0.items, r < catalog.length) ∧
      (s0.items.filterMap (fun r => catalog[r]?)).length = min 8 catalog.length ∧
      (s0.items.filterMap (fun r => catalog[r]?)).Subperm catalog ∧
      s0.index = 0 ∧ s0.correctSession = 0 ∧ s0.totalSession = min 8 catalog.length ∧
      (timedInitial (App.atMenu progress storage nextTimer) catalog rand).index = 0 ∧
      (timedInitial (App.atMenu progress storage nextTimer) catalog rand).correctSession
        = 0 := by
  obtain ⟨s0, h0, hc, hafter⟩ :=
    startTimedChallenge_after host progress storage nextTimer catalog rand ch
  obtain ⟨hi, hx, ht, _, _⟩ := hafter
  have hlen := workingSet_length catalog.length rand
  have hrefs := workingSet_refs catalog.length rand
  refine ⟨s0, h0, hi, by rw [hi]; exact hlen, by rw [hi]; exact workingSet_nodup _ rand,
    by rw [hi]; exact hrefs, ?_, by rw [hi]; exact workingSet_subperm catalog rand, hx, hc,
    by rw [ht]; exact hlen, rfl, rfl⟩
  rw [hi]
  have hall : ∀ r ∈ (shuffle (List.range catalog.length) rand).take
      (min 8 (shuffle (List.range catalog.length) rand).length),
      (catalog[r]?).isSome = true := by
    intro r hr
    simp [hrefs r hr]
  have hmap : ∀ l : List Nat, (∀ r ∈ l, (catalog[r]?).isSome = true) →
      (l.filterMap (fun r => catalog[r]?)).length = l.length := by
    intro l
    induction l with
    | nil => intro _; rfl
    | cons a l ih =>
      intro h
      have ha := h a (List.mem_cons_self a l)
      cases hget : catalog[a]? with
      | none => simp [hget] at ha
      | some d =>
        rw [List.filterMap_cons_some hget, List.length_cons, List.length_cons,
          ih (fun r hr => h r (List.mem_cons_of_mem a hr))]
  rw [hmap _ hall, hlen]

/-! ### Empty input and appended text -/

theorem trim_of_whiteSpace (input : String) (h : ∀ c ∈ input.data, isWhiteSpace c = true) :
    trim input = "" := by
  have h1 : trimStart input.data = [] := by
    unfold trimStart
    exact List.dropWhile_eq_nil_iff.mpr h
  simp only [trim, h1]
  rfl

theorem infix_empty_data (toLowerCase : String → String) (hempty : toLowerCase "" = "")
    (kw : String) : (toLowerCase kw).data <:+: (toLowerCase "").data ↔ toLowerCase kw = "" := by
  rw [hempty]
  constructor
  · intro h
    have h2 : (toLowerCase kw).data = [] := List.infix_nil.mp h
    exact String.ext h2
  · intro h
    rw [h]

/-- C13, counterexample: the item whose one keyword is the empty string has a non-empty
keyword list, and `evaluateAnswer` is true for it on the empty input and on an input of
spaces. -/
theorem empty_input_accepted_for_empty_keyword :
    ({ term := "T", definition := "D", keywords := [""] } : DefinitionItem).keywords ≠ [] ∧
    evaluateAnswer asciiLower "" { term := "T", definition := "D", keywords := [""] } = true ∧
    evaluateAnswer asciiLower "   " { term := "T", definition := "D", keywords := [""] }
      = true := by
  decide

/-- C13, amended: for a lower-casing that maps the empty string to itself, on the empty input
and on every input of white space only, `evaluateAnswer` is false exactly for the items that
have a keyword whose lower-cased form is not the empty string (so for every item with a
keyword other than the empty string under JavaScript's `toLowerCase`); for every item whose
keyword list is empty it is true for every input. -/
theorem empty_input_false_iff_nonempty_keyword (toLowerCase : String → String)
    (hempty : toLowerCase "" = "") :
    (∀ (item : DefinitionItem) (input : String),
      (∀ c ∈ input.data, isWhiteSpace c = true) →
      (evaluateAnswer toLowerCase input item = false ↔
        ∃ kw ∈ item.keywords, toLowerCase kw ≠ "")) ∧
    (∀ (item : DefinitionItem),
      (evaluateAnswer toLowerCase "" item = false ↔
        ∃ kw ∈ item.keywords, toLowerCase kw ≠ "")) ∧
    (∀ (item : DefinitionItem) (input : String),
      item.keywords = [] → evaluateAnswer toLowerCase input item = true) := by
  have hmain : ∀ (item : DefinitionItem) (input : String),
      (∀ c ∈ input.data, isWhiteSpace c = true) →
      (evaluateAnswer toLowerCase input item = false ↔
        ∃ kw ∈ item.keywords, toLowerCase kw ≠ "") := by
    intro item input hws
    rw [← Bool.not_eq_true, evaluateAnswer_eq_true_iff, trim_of_whiteSpace input hws]
    simp only [infix_empty_data toLowerCase hempty, not_forall, exists_prop, ne_eq]
  refine ⟨hmain, fun item => hmain item "" (by simp), ?_⟩
  intro item input hk
  rw [evaluateAnswer_eq_true_iff, hk]
  intro kw hkw
  cases hkw

theorem empty_input_false_iff_nonempty_keyword_witness :
    asciiLower "" = "" ∧
    (evaluateAnswer asciiLower "" latencyScenario = false ↔
      ∃ kw ∈ latencyScenario.keywords, asciiLower kw ≠ "") :=
  ⟨rfl, (empty_input_false_iff_nonempty_keyword asciiLower rfl).2.1 latencyScenario⟩

/-- C14, counterexample: the input of capital alpha (U+0391) and capital sigma (U+03A3)
lower-cases to alpha and final sigma (U+03B1, U+03C2) and holds the keyword final sigma, so the
verdict is true; followed by a capital alpha it lower-cases to alpha, small sigma (U+03C3),
alpha, the keyword is gone and the verdict is false. The same happens when a full stop, which
is case-ignorable, stands between the capital sigma and the appended capital alpha. -/
theorem appended_text_flips_true_to_false :
    sigmaLower "ΑΣ" = "ας" ∧
    sigmaLower ("ΑΣ" ++ "Α") = "ασα" ∧
    evaluateAnswer sigmaLower "ΑΣ" finalSigmaItem = true ∧
    evaluateAnswer sigmaLower ("ΑΣ" ++ "Α") finalSigmaItem = false ∧
    sigmaLower "ΑΣ." = "ας." ∧
    sigmaLower ("ΑΣ." ++ "Α") = "ασ.α" ∧
    evaluateAnswer sigmaLower "ΑΣ." finalSigmaItem = true ∧
    evaluateAnswer sigmaLower ("ΑΣ." ++ "Α") finalSigmaItem = false := by
  decide

theorem trimStart_append_of_ne_nil (s k : List Char) (h : trimStart s ≠ []) :
    trimStart (s ++ k) = trimStart s ++ k := by
  unfold trimStart at *
  induction s with
  | nil => simp at h
  | cons c s ih =>
    by_cases hc : isWhiteSpace c = true
    · simp only [List.cons_append, List.dropWhile_cons, hc, if_true] at h ⊢
      exact ih h
    · simp [List.dropWhile_cons, hc]

theorem trimEnd_kept (x : List Char) : trimEnd x <+: x := by
  unfold trimEnd
  have h : (x.reverse.dropWhile isWhiteSpace) <:+ x.reverse := List.dropWhile_suffix _
  have h2 := List.reverse_prefix.mpr h
  simpa using h2

theorem trimEnd_append_kept (x k : List Char) : trimEnd x <+: trimEnd (x ++ k) := by
  unfold trimEnd
  rw [List.reverse_prefix, List.reverse_append]
  by_cases hk : ∀ c ∈ k.reverse, isWhiteSpace c = true
  · have he : (List.dropWhile isWhiteSpace k.reverse).isEmpty = true := by
      rw [List.isEmpty_iff]
      exact List.dropWhile_eq_nil_iff.mpr hk
    rw [List.dropWhile_append, if_pos he]
  · have hne : ¬ (List.dropWhile isWhiteSpace k.reverse).isEmpty = true := by
      rw [List.isEmpty_iff]
      intro h
      exact hk (List.dropWhile_eq_nil_iff.mp h)
    rw [List.dropWhile_append, if_neg hne]
    exact (List.dropWhile_suffix _).trans (List.suffix_append _ _)

theorem trim_append_kept (s k : String) : (trim s).data <+: (trim (s ++ k)).data := by
  show trimEnd (trimStart s.data) <+: trimEnd (trimStart (s ++ k).data)
  by_cases h : trimStart s.data = []
  · rw [h]
    exact List.nil_prefix
  · rw [String.data_append, trimStart_append_of_ne_nil _ _ h]
    exact trimEnd_append_kept _ _

theorem evaluateAnswer_mono_of_kept (toLowerCase : String → String) (item : DefinitionItem)
    (s k : String)
    (hkeep : (toLowerCase (trim s)).data <+: (toLowerCase (trim (s ++ k))).data)
    (h : evaluateAnswer toLowerCase s item = true) :
    evaluateAnswer toLowerCase (s ++ k) item = true := by
  rw [evaluateAnswer_eq_true_iff] at h ⊢
  intro kw hkw
  exact (h kw hkw).trans hkeep.isInfix

theorem asciiLower_append (a b : String) : asciiLower (a ++ b) = asciiLower a ++ asciiLower b := by
  apply String.ext
  simp [asciiLower, String.data_append]

theorem trim_data_subset (x : String) : ∀ c ∈ (trim x).data, c ∈ x.data := by
  intro c hc
  have h1 : c ∈ trimStart x.data := (trimEnd_kept (trimStart x.data)).subset hc
  exact (List.dropWhile_suffix isWhiteSpace).subset h1

theorem asciiLower_kept (a b : String) (h : a.data <+: b.data) :
    (asciiLower a).data <+: (asciiLower b).data := by
  obtain ⟨r, hr⟩ := h
  refine ⟨r.map Char.toLower, ?_⟩
  simp [asciiLower, ← hr]

/-- C14, amended: `evaluateAnswer` is monotonic whenever appending `k` to the input `s` keeps
the lower-cased old text in place, that is, the lower-cased trimmed `s` is a prefix of the
lower-cased trimmed `s` followed by `k`; this is so for every `s` and `k` when the lower-casing
maps a concatenation to the concatenation of the lower-cased parts (trimming never removes
old text), and for every ASCII `s` and `k` when the lower-casing is that of ASCII on ASCII
strings, as JavaScript's `toLowerCase` is. Appended text can turn the verdict from false to
true: the scenario item rejects "the critical path" and accepts it followed by
" and response time". -/
theorem evaluateAnswer_monotone_when_lowercase_kept :
    (∀ (toLowerCase : String → String) (item : DefinitionItem) (s k : String),
      (toLowerCase (trim s)).data <+: (toLowerCase (trim (s ++ k))).data →
      evaluateAnswer toLowerCase s item = true →
      evaluateAnswer toLowerCase (s ++ k) item = true) ∧
    (∀ (toLowerCase : String → String),
      (∀ a b : String, toLowerCase (a ++ b) = toLowerCase a ++ toLowerCase b) →
      ∀ (item : DefinitionItem) (s k : String),
        evaluateAnswer toLowerCase s item = true →
        evaluateAnswer toLowerCase (s ++ k) item = true) ∧
    (evaluateAnswer asciiLower "the critical path" latencyScenario = false ∧
      evaluateAnswer asciiLower ("the critical path" ++ " and response time") latencyScenario
        = true) ∧
    (∀ (toLowerCase : String → String),
      (∀ x : String, (∀ c ∈ x.data, c.toNat < 128) → toLowerCase x = asciiLower x) →
      ∀ (item : DefinitionItem) (s k : String),
        (∀ c ∈ s.data, c.toNat < 128) → (∀ c ∈ k.data, c.toNat < 128) →
        evaluateAnswer toLowerCase s item = true →
        evaluateAnswer toLowerCase (s ++ k) item = true) := by
  refine ⟨evaluateAnswer_mono_of_kept, ?_, by decide, ?_⟩
  · intro toLowerCase hcat item s k h
    apply evaluateAnswer_mono_of_kept toLowerCase item s k _ h
    obtain ⟨r, hr⟩ := trim_append_kept s k
    have htrim : trim (s ++ k) = trim s ++ ⟨r⟩ := by
      apply String.ext
      rw [String.data_append, ← hr]
    rw [htrim, hcat, String.data_append]
    exact List.prefix_append _ _
  · intro toLowerCase hascii item s k hs hk h
    apply evaluateAnswer_mono_of_kept toLowerCase item s k _ h
    have h1 : ∀ c ∈ (trim s).data, c.toNat < 128 :=
      fun c hc => hs c (trim_data_subset s c hc)
    have h2 : ∀ c ∈ (trim (s ++ k)).data, c.toNat < 128 := by
      intro c hc
      have hm := trim_data_subset (s ++ k) c hc
      rw [String.data_append, List.mem_append] at hm
      exact hm.elim (hs c) (hk c)
    rw [hascii _ h1, hascii _ h2]
    exact asciiLower_kept _ _ (trim_append_kept s k)

theorem evaluateAnswer_monotone_when_lowercase_kept_witness :
    (∀ a b : String, asciiLower (a ++ b) = asciiLower a ++ asciiLower b) ∧
    evaluateAnswer asciiLower "response time, critical path" latencyScenario = true ∧
    evaluateAnswer asciiLower ("response time, critical path" ++ " and more") latencyScenario
      = true :=
  ⟨asciiLower_append, by decide,
   evaluateAnswer_monotone_when_lowercase_kept.2.1 asciiLower asciiLower_append latencyScenario
     "response time, critical path" " and more" (by decide)⟩

/-! ### Writes to the catalog -/

/-- C15, counterexample: starting a timed challenge on `definitions` writes the field
`correctIdx` on the first catalog item, which had no such field: the catalog objects are not
the same afterwards as before. -/
theorem timed_start_writes_catalog :
    (definitions.map (fun d => d.correctIdx)).take 2 = [none, none] ∧
    sampleTimedStart.map (fun s => (s.definitions.map (fun d => d.correctIdx)).take 2) =
      some [some 0, none] ∧
    sampleTimedStart.map (fun s => decide (s.definitions = definitions)) = some false := by
  decide

theorem nextQuestion_content (host : Host) (ch : Chance) (s s1 : TimedChallenge)
    (h : nextQuestion host ch s = some s1) :
    s1.definitions.map DefinitionItem.content = s.definitions.map DefinitionItem.content := by
  unfold nextQuestion at h
  cases hi : s.items[s.index]? with
  | none =>
    simp only [hi] at h
    cases h
    rfl
  | some r =>
    simp only [hi] at h
    cases hd : s.definitions[r]? with
    | none => simp [hd] at h
    | some item =>
      simp only [hd] at h
      cases h
      simp only [List.map_set]
      apply List.ext_getElem?
      intro i
      by_cases hir : r = i
      · subst hir
        obtain ⟨hlt, hget⟩ := List.getElem?_eq_some.mp hd
        simp [List.getElem?_set, hlt, DefinitionItem.content, hget]
      · simp [List.getElem?_set, hir]

theorem revealAnswer_definitions (s s1 : TimedChallenge) (selected : Option Nat)
    (h : revealAnswer s selected = some s1) : s1.definitions = s.definitions := by
  unfold revealAnswer at h
  cases hcur : s.current with
  | none => simp [hcur] at h
  | some question =>
    simp only [hcur] at h
    cases selected with
    | none =>
      simp only at h
      split at h
      · cases h; rfl
      · cases h
    | some i =>
      simp only at h
      split at h
      · split at h
        · cases h; rfl
        · cases h
      · split at h
        · cases h; rfl
        · cases h

theorem stepTimedChallenge_content (host : Host) (s s1 : TimedChallenge) (e : TimedEvent)
    (h : stepTimedChallenge host s e = some s1) :
    s1.definitions.map DefinitionItem.content = s.definitions.map DefinitionItem.content := by
  cases e with
  | click i =>
    simp only [stepTimedChallenge] at h
    split at h
    · split at h
      · rw [revealAnswer_definitions s s1 (some i) h]
      · cases h
    · cases h
  | back =>
    simp only [stepTimedChallenge] at h
    split at h
    · cases h; rfl
    · cases h; rfl
    · cases h
  | fire id ch =>
    simp only [stepTimedChallenge] at h
    split at h
    · exact nextQuestion_content host ch
        { s with
          app := { s.app with pending := s.app.pending.filter (fun p => p.1 != id) }
          index := s.index + 1 } s1 h
    · cases h; rfl
    · unfold tick at h
      simp only at h
      split at h
      · rw [revealAnswer_definitions _ s1 none h]
      · cases h; rfl
    · cases h

theorem runTimedChallenge_content (host : Host) :
    ∀ (events : List TimedEvent) (s s1 : TimedChallenge),
      runTimedChallenge host s events = some s1 →
      s1.definitions.map DefinitionItem.content =
        s.definitions.map DefinitionItem.content := by
  intro events
  induction events with
  | nil => intro s s1 h; cases h; rfl
  | cons e es ih =>
    intro s s1 h
    simp only [runTimedChallenge] at h
    cases hstep : stepTimedChallenge host s e with
    | none => simp [hstep] at h
    | some s2 =>
      simp only [hstep, Option.some_bind] at h
      exact (ih s2 s1 h).trans (stepTimedChallenge_content host s s2 e hstep)

theorem stepCoding_topics (s s1 : Coding) (e : CodingEvent) (h : stepCoding s e = some s1) :
    s1.codingTopics = s.codingTopics := by
  cases e with
  | openTopic i =>
    simp only [stepCoding] at h
    split at h
    · split at h
      · cases h; rfl
      · cases h
    · cases h
  | edit code =>
    simp only [stepCoding] at h
    split at h
    · cases h; rfl
    · cases h
  | run =>
    simp only [stepCoding] at h
    split at h
    · cases h; rfl
    · cases h
  | backToTopics =>
    simp only [stepCoding] at h
    split at h
    · cases h; rfl
    · cases h
  | backToMenu =>
    simp only [stepCoding] at h
    split at h
    · cases h; rfl
    · cases h

theorem runCoding_topics :
    ∀ (events : List CodingEvent) (s s1 : Coding),
      runCoding s events = some s1 → s1.codingTopics = s.codingTopics := by
  intro events
  induction events with
  | nil => intro s s1 h; cases h; rfl
  | cons e es ih =>
    intro s s1 h
    simp only [runCoding] at h
    cases hstep : stepCoding s e with
    | none => simp [hstep] at h
    | some s2 =>
      simp only [hstep, Option.some_bind] at h
      exact (ih s2 s1 h).trans (stepCoding_topics s s2 e hstep)

theorem nextQuestion_untouched (host : Host) (ch : Chance) (s s1 : TimedChallenge)
    (h : nextQuestion host ch s = some s1) (i : Nat) (hi : i ∉ s.items) :
    s1.definitions[i]? = s.definitions[i]? := by
  unfold nextQuestion at h
  cases hr : s.items[s.index]? with
  | none =>
    simp only [hr] at h
    cases h
    rfl
  | some r =>
    simp only [hr] at h
    cases hd : s.definitions[r]? with
    | none => simp [hd] at h
    | some item =>
      simp only [hd] at h
      cases h
      have hne : r ≠ i := fun heq => hi (heq ▸ List.getElem?_mem hr)
      simp [List.getElem?_set, hne]

theorem stepTimedChallenge_untouched (host : Host) (s s1 : TimedChallenge) (e : TimedEvent)
    (h : stepTimedChallenge host s e = some s1) (i : Nat) (hi : i ∉ s.items) :
    s1.definitions[i]? = s.definitions[i]? := by
  cases e with
  | click j =>
    simp only [stepTimedChallenge] at h
    split at h
    · split at h
      · rw [revealAnswer_definitions s s1 (some j) h]
      · cases h
    · cases h
  | back =>
    simp only [stepTimedChallenge] at h
    split at h
    · cases h; rfl
    · cases h; rfl
    · cases h
  | fire id ch =>
    simp only [stepTimedChallenge] at h
    split at h
    · exact nextQuestion_untouched host ch
        { s with
          app := { s.app with pending := s.app.pending.filter (fun p => p.1 != id) }
          index := s.index + 1 } s1 h i hi
    · cases h; rfl
    · unfold tick at h
      simp only at h
      split at h
      · rw [revealAnswer_definitions _ s1 none h]
      · cases h; rfl
    · cases h

theorem runTimedChallenge_untouched (host : Host) :
    ∀ (events : List TimedEvent) (s s1 : TimedChallenge),
      runTimedChallenge host s events = some s1 → ∀ i, i ∉ s.items →
      s1.definitions[i]? = s.definitions[i]? := by
  intro events
  induction events with
  | nil => intro s s1 h i _; cases h; rfl
  | cons e es ih =>
    intro s s1 h i hi
    simp only [runTimedChallenge] at h
    cases hstep : stepTimedChallenge host s e with
    | none => simp [hstep] at h
    | some s2 =>
      simp only [hstep, Option.some_bind] at h
      have hitems : s2.items = s.items := (stepTimedChallenge_ledger host s s2 e hstep).1
      exact (ih s2 s1 h i (by rw [hitems]; exact hi)).trans
        (stepTimedChallenge_untouched host s s2 e hstep i hi)

/-- C15, amended: the sessions never change the term, the definition or the keywords of an
item of `definitions`, nor any field of an item of `mcQuestions` or `codingTopics`. For every
sequence of events of a flashcard session or a quiz the working set stays the shuffled
catalog, items unchanged; for every sequence of events of coding practice the topics stay as
they were; for every sequence of events of a timed challenge the catalog keeps its length,
every item keeps its term, definition and keywords, and every item outside the working set
keeps all its fields: the one field the timed challenge writes is `correctIdx`, on items of
its working set. -/
theorem catalog_content_never_written :
    (∀ (host : Host) (app : App) (catalog : List DefinitionItem) (rand : Draws)
        (events : List FlashEvent) (s : Flashcards),
      runFlashcards host (startFlashcards host app catalog rand) events = some s →
      s.items = shuffle catalog rand ∧ s.items.Perm catalog) ∧
    (∀ (host : Host) (app : App) (catalog : List McQuestion) (rand : Draws)
        (events : List QuizEvent) (s : MultipleChoice),
      runMultipleChoice host (startMultipleChoice host app catalog rand) events = some s →
      s.questions = shuffle catalog rand ∧ s.questions.Perm catalog) ∧
    (∀ (app : App) (catalog : List CodingTopic) (events : List CodingEvent) (s : Coding),
      runCoding (startCoding app catalog) events = some s → s.codingTopics = catalog) ∧
    (∀ (host : Host) (app : App) (catalog : List DefinitionItem) (rand : Draws) (ch : Chance)
        (events : List TimedEvent) (s0 s : TimedChallenge),
      startTimedChallenge host app catalog rand ch = some s0 →
      runTimedChallenge host s0 events = some s →
      s.definitions.length = catalog.length ∧
      s.definitions.map DefinitionItem.content = catalog.map DefinitionItem.content ∧
      ∀ i, i ∉ s.items → s.definitions[i]? = catalog[i]?) := by
  refine ⟨?_, ?_, ?_, ?_⟩
  · intro host app catalog rand events s hrun
    have h1 := (runFlashcards_ledger host events _ s hrun).1
    have h2 : (startFlashcards host app catalog rand).items = shuffle catalog rand :=
      (renderCard_ledger host _).1
    have h3 : s.items = shuffle catalog rand := h1.trans h2
    exact ⟨h3, by rw [h3]; exact shuffle_perm_aux catalog rand⟩
  · intro host app catalog rand events s hrun
    have h1 := (runMultipleChoice_ledger host events _ s hrun).1
    have h2 : (startMultipleChoice host app catalog rand).questions = shuffle catalog rand :=
      (renderQuestion_ledger host _).1
    have h3 : s.questions = shuffle catalog rand := h1.trans h2
    exact ⟨h3, by rw [h3]; exact shuffle_perm_aux catalog rand⟩
  · intro app catalog events s hrun
    exact runCoding_topics events _ s hrun
  · intro host app catalog rand ch events s0 s h0 hrun
    have h1 := runTimedChallenge_content host events s0 s hrun
    have h2 : s0.definitions.map DefinitionItem.content =
        catalog.map DefinitionItem.content :=
      nextQuestion_content host ch (timedInitial app catalog rand) s0 h0
    have h3 := h1.trans h2
    have hitems0 : s0.items = (timedInitial app catalog rand).items :=
      (nextQuestion_ledger host ch _ s0 h0).1
    have hitems : s.items = s0.items := (runTimedChallenge_ledger host events s0 s hrun).1
    refine ⟨?_, h3, ?_⟩
    · have h4 := congrArg List.length h3
      simpa using h4
    · intro i hi
      have hi0 : i ∉ s0.items := by rw [← hitems]; exact hi
      have hi1 : i ∉ (timedInitial app catalog rand).items := by rw [← hitems0]; exact hi0
      exact (runTimedChallenge_untouched host events s0 s hrun i hi0).trans
        (nextQuestion_untouched host ch (timedInitial app catalog rand) s0 h0 i hi1)

theorem catalog_content_never_written_witness :
    ∃ s0 s : TimedChallenge,
      startTimedChallenge referenceHost (App.atMenu defaultProgress none 1) definitions
        drawLast chanceIdentity = some s0 ∧
      runTimedChallenge referenceHost s0 [.fire 1 chanceIdentity, .click 0] = some s ∧
      s.definitions.length = definitions.length ∧
      s.definitions.map DefinitionItem.content = definitions.map DefinitionItem.content ∧
      ∀ i, i ∉ s.items → s.definitions[i]? = definitions[i]? :=
  ⟨sampleTimedStart.get (by decide),
   (runTimedChallenge referenceHost (sampleTimedStart.get (by decide))
      [.fire 1 chanceIdentity, .click 0]).get (by decide),
   (Option.some_get _).symm, (Option.some_get _).symm,
   catalog_content_never_written.2.2.2 referenceHost (App.atMenu defaultProgress none 1)
     definitions drawLast chanceIdentity [.fire 1 chanceIdentity, .click 0] _ _
     (Option.some_get _).symm (Option.some_get _).symm⟩

/-! ### Repeated answers: stale timers and counts -/

/-- C16, the code at the failing input: in a flashcard session on `definitions`, after three
presses of "Submit" on the first card and the firing of timer 1 the second card is shown while
timer 2, set on the first card, is still pending; when it fires the cursor moves to the third
card although the second card was not answered. On the last card the same three presses make
the end-of-session branch run twice: 31 answers are in the ledger as 31 after timer 29 and as
62 after timer 30. -/
theorem stale_timer_fires_into_later_card :
    threeSubmitsFirstTimer.map (fun s => (s.index, s.screen.term, s.totalThisSession)) =
      some (1, some "Lexical analysis", 3) ∧
    threeSubmitsFirstTimer.map (fun s => (s.app.pending, s.timeoutId)) =
      some ([(2, TimerKind.advance)], some 3) ∧
    threeSubmitsSecondTimer.map
        (fun s => (s.index, s.screen.term, s.totalThisSession, s.app.pending)) =
      some (2, some "Syntactic analysis", 3, []) ∧
    lastCardFirstTimer.map
        (fun s => (s.index, s.screen, s.totalThisSession, s.app.progress.flashcards)) =
      some (29, .summary, 31, ⟨0, 31⟩) ∧
    lastCardFirstTimer.map (fun s => s.app.pending) = some [(30, TimerKind.advance)] ∧
    lastCardSecondTimer.map
        (fun s => (s.index, s.screen, s.totalThisSession, s.app.progress.flashcards)) =
      some (30, .summary, 31, ⟨0, 62⟩) := by
  refine ⟨by decide, by decide, by decide, by decide, by decide, by decide⟩

theorem stepMultipleChoice_total (host : Host) (s s1 : MultipleChoice) (e : QuizEvent)
    (h : stepMultipleChoice host s e = some s1) : s1.totalSession = s.totalSession := by
  cases e with
  | click i =>
    simp only [stepMultipleChoice] at h
    split at h
    · split at h
      · split at h
        · cases h; rfl
        · split at h
          · cases h; rfl
          · cases h
      · cases h
    · cases h
  | back =>
    simp only [stepMultipleChoice] at h
    split at h
    · cases h; rfl
    · cases h; rfl
    · cases h
  | fire id =>
    simp only [stepMultipleChoice] at h
    split at h
    · cases h
      unfold renderQuestion
      split <;> rfl
    · cases h

theorem runMultipleChoice_total (host : Host) :
    ∀ (events : List QuizEvent) (s s1 : MultipleChoice),
      runMultipleChoice host s events = some s1 → s1.totalSession = s.totalSession := by
  intro events
  induction events with
  | nil => intro s s1 h; cases h; rfl
  | cons e es ih =>
    intro s s1 h
    simp only [runMultipleChoice] at h
    cases hstep : stepMultipleChoice host s e with
    | none => simp [hstep] at h
    | some s2 =>
      simp only [hstep, Option.some_bind] at h
      exact (ih s2 s1 h).trans (stepMultipleChoice_total host s s2 e hstep)

/-- C17: the multiple-choice and the timed session do not keep correct ≤ total. Whatever
events happen, `totalSession` stays the size of the working set fixed at the start; in the
quiz on `mcQuestions` and in the timed challenge on `definitions`, clicking the correct option
of the first question twice before the feedback timer fires and answering the other questions
correctly once ends the session at the summary with `correctSession` 11 against a total of 10
(9 against 8 in the timed challenge), and the ledger entry of the mode, folded from the
all-zero ledger, has a correct count above its total count. -/
theorem correct_count_can_exceed_total :
    (∀ (host : Host) (app : App) (catalog : List McQuestion) (rand : Draws)
        (events : List QuizEvent) (s : MultipleChoice),
      runMultipleChoice host (startMultipleChoice host app catalog rand) events = some s →
      s.totalSession = catalog.length) ∧
    (∀ (host : Host) (app : App) (catalog : List DefinitionItem) (rand : Draws) (ch : Chance)
        (events : List TimedEvent) (s0 s : TimedChallenge),
      startTimedChallenge host app catalog rand ch = some s0 →
      runTimedChallenge host s0 events = some s →
      s.totalSession = min 8 catalog.length) ∧
    (runMultipleChoice referenceHost
        (startMultipleChoice referenceHost (App.atMenu defaultProgress none 1) mcQuestions
          drawLast) overcountQuizEvents).map
        (fun s => (s.screen, s.correctSession, s.totalSession, s.app.progress.multiple)) =
      some (.summary, 11, 10, ⟨11, 10⟩) ∧
    (sampleTimedStart.bind
        (fun s0 => runTimedChallenge referenceHost s0 overcountTimedEvents)).map
        (fun s => (s.screen, s.correctSession, s.totalSession, s.app.progress.timed)) =
      some (.summary, 9, 8, ⟨9, 8⟩) := by
  refine ⟨?_, ?_, by decide, by decide⟩
  · intro host app catalog rand events s hrun
    rw [runMultipleChoice_total host events _ s hrun]
    have h : (startMultipleChoice host app catalog rand).totalSession =
        (shuffle catalog rand).length := by
      unfold startMultipleChoice renderQuestion
      split <;> rfl
    rw [h, shuffle_length]
  · intro host app catalog rand ch events s0 s h0 hrun
    obtain ⟨_, _, ht, _⟩ := runTimedChallenge_ledger host events s0 s hrun
    rw [ht]
    have h : s0.totalSession = (timedInitial app catalog rand).totalSession := by
      have h0b : nextQuestion host ch (timedInitial app catalog rand) = some s0 := h0
      unfold nextQuestion at h0b
      simp only at h0b
      split at h0b
      · cases h0b; rfl
      · split at h0b
        · cases h0b
        · cases h0b; rfl
    rw [h]
    exact workingSet_length catalog.length rand

/-! ### The catalog under the flashcard rule -/

/-- C18: the built-in catalog is not self-consistent under the flashcard rule. The item
'Syntactic analysis' is an item of `definitions`, its keyword 'grammar' does not occur in its
definition text, and for every lower-casing that agrees with the ASCII one on ASCII strings
(as `toLowerCase` does) `evaluateAnswer(item.definition, item)` is false: the reference
definition typed verbatim is scored incorrect. -/
theorem reference_definition_scored_incorrect (toLowerCase : String → String)
    (hascii : ∀ s : String, (∀ c ∈ s.data, c.toNat < 128) → toLowerCase s = asciiLower s) :
    ∃ item ∈ definitions, item.term = "Syntactic analysis" ∧ "grammar" ∈ item.keywords ∧
      includes item.definition "grammar" = false ∧
      evaluateAnswer toLowerCase item.definition item = false := by
  refine ⟨syntacticAnalysis, by decide, rfl, by decide, by decide, ?_⟩
  rw [← Bool.not_eq_true, evaluateAnswer_eq_true_iff]
  intro h
  have hkw := h "grammar" (by decide)
  rw [hascii "grammar" (by decide),
    hascii (trim syntacticAnalysis.definition) (by decide), ← includesChars_iff] at hkw
  revert hkw
  decide

theorem reference_definition_scored_incorrect_witness :
    (∀ s : String, (∀ c ∈ s.data, c.toNat < 128) → asciiLower s = asciiLower s) ∧
    ∃ item ∈ definitions, item.term = "Syntactic analysis" ∧ "grammar" ∈ item.keywords ∧
      includes item.definition "grammar" = false ∧
      evaluateAnswer asciiLower item.definition item = false :=
  ⟨fun _ _ => rfl, reference_definition_scored_incorrect asciiLower (fun _ _ => rfl)⟩

end IbPaper3
